import Mathlib

/-!
Verification of the classification-and-planning engine of the
Local-File-Organizer repository.

The embedding is shallow: Python strings are modelled as `List Char`
(`PyStr`), Python floats as `ℚ` (decimal literals map exactly to rationals;
`inf`/`nan` and digit underscores are outside the model and treated as parse
failures), Python exceptions raised by external collaborators (torch, the
text/image models, file I/O) are modelled as explicit `Except`/`Option`
oracle parameters.  All functions are translated from

  - src/content_based_categorization.py  (AICategorizer, categorize_by_content)
  - src/file_type_config.py              (FileTypeRule, FileTypeManager)
  - src/main_ui_compatible.py            (process_files_with_ai)

and keep the source names where Lean allows it.
-/

/-- Python strings, modelled as lists of characters. -/
abbrev PyStr := List Char

/-- The whitespace characters stripped by Python's `str.strip()`
(ASCII fragment of Python's definition). -/
def isPySpace (c : Char) : Bool :=
  c == ' ' || c == '\t' || c == '\n' || c == '\r' || c == '\x0b' || c == '\x0c'

/-- Python `str.lstrip()`. -/
def pyLStrip (l : PyStr) : PyStr := l.dropWhile isPySpace

/-- Python `str.rstrip()`. -/
def pyRStrip (l : PyStr) : PyStr := (l.reverse.dropWhile isPySpace).reverse

/-- Python `str.strip()`. -/
def pyStrip (l : PyStr) : PyStr := pyRStrip (pyLStrip l)

/-- Python `str.lower()` (ASCII fragment, as in `Char.toLower`). -/
def pyLower (l : PyStr) : PyStr := l.map Char.toLower

/-- Python `str.split(c)` for a single-character separator:
keeps empty segments, `split` of the empty string is `[""]`. -/
def splitOnChar (c : Char) : PyStr → List PyStr
  | [] => [[]]
  | a :: l =>
    if a == c then [] :: splitOnChar c l
    else
      match splitOnChar c l with
      | [] => [[a]]
      | h :: t => (a :: h) :: t

/-- Helper for `removeAll`, structurally recursive on a fuel argument so that
it reduces by `decide`/`rfl`; the fuel is always instantiated with the length
of the scanned string, which suffices because every step consumes at least one
character. -/
def removeAllAux (t : PyStr) : ℕ → PyStr → PyStr
  | 0, l => l
  | _ + 1, [] => []
  | n + 1, a :: l =>
    if t.isPrefixOf (a :: l) && !t.isEmpty then
      removeAllAux t n (l.drop (t.length - 1))
    else
      a :: removeAllAux t n l

/-- Python `str.replace(t, '')`: delete every (non-overlapping, left-to-right)
occurrence of `t`. -/
def removeAll (t l : PyStr) : PyStr := removeAllAux t l.length l

/-- Helper for `splitOnSub`, fuelled like `removeAllAux`. -/
def splitOnSubAux (t : PyStr) : ℕ → PyStr → List PyStr
  | 0, l => [l]
  | _ + 1, [] => [[]]
  | n + 1, a :: l =>
    if t.isPrefixOf (a :: l) && !t.isEmpty then
      [] :: splitOnSubAux t n (l.drop (t.length - 1))
    else
      match splitOnSubAux t n l with
      | [] => [[a]]
      | h :: r => (a :: h) :: r

/-- Python `str.split(t)` for a non-empty separator string `t`. -/
def splitOnSub (t l : PyStr) : List PyStr := splitOnSubAux t l.length l

/-- Numeric value of a digit string (used by the float model). -/
def digitsToNat (l : PyStr) : ℕ :=
  l.foldl (fun n c => 10 * n + (c.toNat - 48)) 0

/-- Exponent part of a Python float literal: either nothing is left, or
`e`/`E`, an optional sign and a non-empty digit string.  The result keeps the
signed mantissa numerator `n`, the fractional digit count `k` and the signed
exponent separate, so that the whole parse is integer-level and computable
by `decide`; the rational value is assembled once, in `pyFloat?`. -/
def expRaw (n : ℤ) (k : ℕ) : PyStr → Option (ℤ × ℕ × ℤ)
  | [] => some (n, k, 0)
  | c :: r =>
    if c == 'e' || c == 'E' then
      let esign : ℤ := match r with | '-' :: _ => -1 | _ => 1
      let r2 : PyStr := match r with | '+' :: rr => rr | '-' :: rr => rr | rr => rr
      let ds := r2.takeWhile Char.isDigit
      if ds.isEmpty || !(r2.dropWhile Char.isDigit).isEmpty then none
      else some (n, k, esign * (digitsToNat ds : ℤ))
    else none

/-- Integer-level parse of a Python float literal:
`some (n, k, e)` denotes the value `n / 10 ^ k * 10 ^ e`. -/
def pyFloatRaw (s : PyStr) : Option (ℤ × ℕ × ℤ) :=
  let s1 := pyStrip s
  let sign : ℤ := match s1 with | '-' :: _ => -1 | _ => 1
  let s2 : PyStr := match s1 with | '+' :: r => r | '-' :: r => r | r => r
  let ip := s2.takeWhile Char.isDigit
  let r1 := s2.dropWhile Char.isDigit
  match r1 with
  | '.' :: r2 =>
    let fp := r2.takeWhile Char.isDigit
    let r3 := r2.dropWhile Char.isDigit
    if ip.isEmpty && fp.isEmpty then none
    else expRaw (sign * (digitsToNat ip * 10 ^ fp.length + digitsToNat fp : ℕ)) fp.length r3
  | _ => if ip.isEmpty then none else expRaw (sign * (digitsToNat ip : ℤ)) 0 r1

/-- Model of Python `float(s)` on finite decimal literals, returning `none`
where Python raises `ValueError`.  (`inf`/`nan` and underscore separators are
outside the model and also return `none`; the exact decimal value is taken,
abstracting from binary-float rounding.) -/
def pyFloat? (s : PyStr) : Option ℚ :=
  (pyFloatRaw s).map (fun x => (x.1 : ℚ) / 10 ^ x.2.1 * (10 : ℚ) ^ x.2.2)

/-- The four field tokens of the AI response format. -/
def catTok : PyStr := "CATEGORY:".data

def reasonTok : PyStr := "REASON:".data

def tagsTok : PyStr := "TAGS:".data

def confTok : PyStr := "CONFIDENCE:".data

/-- The running state of `AICategorizer.parse_ai_response`'s loop:
the four local variables `category`, `reason`, `tags`, `confidence`. -/
structure ParsedAI where
  category : PyStr
  reason : PyStr
  tags : List PyStr
  confidence : ℚ
deriving DecidableEq

/-- One iteration of the `for line in lines` loop of
`AICategorizer.parse_ai_response` (src/content_based_categorization.py,
lines 120-134). -/
def parseLine (st : ParsedAI) (rawLine : PyStr) : ParsedAI :=
  let line := pyStrip rawLine
  if catTok.isPrefixOf line then
    { st with category := pyStrip (removeAll catTok line) }
  else if reasonTok.isPrefixOf line then
    { st with reason := pyStrip (removeAll reasonTok line) }
  else if tagsTok.isPrefixOf line then
    let tags_str := pyStrip (removeAll tagsTok line)
    let newTags := (splitOnChar ',' tags_str).filterMap
      (fun t => if (pyStrip t).isEmpty then none else some (pyStrip t))
    { st with tags := newTags }
  else if confTok.isPrefixOf line then
    let conf_str := pyStrip (removeAll confTok line)
    { st with confidence := (pyFloat? conf_str).getD (7 / 10) }
  else st

/-- The initial values of the loop state of `parse_ai_response`. -/
def defaultParsed : ParsedAI :=
  ⟨"Other".data, "AI analysis provided".data, [], 7 / 10⟩

/-- `AICategorizer.parse_ai_response` (src/content_based_categorization.py,
lines 110-140).  The `try`/`except` around the pure loop can never fire in
the model (no sub-step raises), so only the normal path is embedded. -/
def parse_ai_response (ai_response : PyStr) : ParsedAI :=
  (splitOnChar '\n' (pyStrip ai_response)).foldl parseLine defaultParsed

/-- The literal fallback response of `_get_ai_categorization` when the torch
capability is unavailable (lines 182-187): a triple-quoted string whose lines
are indented by 12 spaces. -/
def torchMissingResponse : PyStr :=
  ("\n            CATEGORY: EXTENSION_BASED"
    ++ "\n            REASON: Torch not available for AI analysis"
    ++ "\n            TAGS: torch-missing, ai-unavailable"
    ++ "\n            CONFIDENCE: 0.0\n            ").data

/-- The literal fallback response of `_get_ai_categorization` when the
generation call raises an exception with message `e` (lines 216-221). -/
def aiErrorResponse (e : PyStr) : PyStr :=
  ("\n            CATEGORY: EXTENSION_BASED"
    ++ "\n            REASON: AI analysis failed due to technical error: ").data
  ++ e
  ++ ("\n            TAGS: error, ai-failed"
    ++ "\n            CONFIDENCE: 0.5\n            ").data

/-- `AICategorizer._get_ai_categorization` (lines 178-221).  The opaque
tokenizer/model invocation is an oracle `gen`: `Except.ok response` models a
successful generation, `Except.error e` a runtime exception with message `e`;
`torchAvailable` models the module-level `TORCH_AVAILABLE` flag. -/
def getAiCategorization (torchAvailable : Bool) (gen : Except PyStr PyStr) : PyStr :=
  if !torchAvailable then torchMissingResponse
  else
    match gen with
    | Except.error e => aiErrorResponse e
    | Except.ok response =>
      match splitOnSub catTok response with
      | _ :: p1 :: _ => catTok ++ p1
      | _ => response

/-- Result tuple of `categorize_with_ai` / `categorize_by_content`:
(category, description, tags, confidence). -/
structure CatResult where
  category : PyStr
  description : PyStr
  tags : List PyStr
  confidence : ℚ
deriving DecidableEq

/-- `AICategorizer.categorize_with_ai` (lines 142-176).  `outerFail = some e`
models the defensive `except` branch of its own `try` (an exception with
message `e` escaping a sub-step); `outerFail = none` is the normal path.
The prompt construction is absorbed into the `gen` oracle. -/
def categorize_with_ai (ai_description : PyStr) (torchAvailable : Bool)
    (gen : Except PyStr PyStr) (outerFail : Option PyStr) : CatResult :=
  match outerFail with
  | some e =>
    ⟨"EXTENSION_BASED".data,
      ai_description ++ " (AI categorization failed: ".data ++ e ++ ")".data,
      [], 1 / 2⟩
  | none =>
    let r := parse_ai_response (getAiCategorization torchAvailable gen)
    ⟨r.category, ai_description ++ " | ".data ++ r.reason, r.tags, r.confidence⟩

/-- `categorize_by_content` (src/content_based_categorization.py,
lines 223-250): run the adapter, then substitute the extension-derived
category when the adapter returned the sentinel `"EXTENSION_BASED"`. -/
def categorize_by_content (ai_description extension_category : PyStr)
    (torchAvailable : Bool) (gen : Except PyStr PyStr) (outerFail : Option PyStr) : CatResult :=
  let r := categorize_with_ai ai_description torchAvailable gen outerFail
  if r.category = "EXTENSION_BASED".data then
    ⟨extension_category, r.description, r.tags, r.confidence⟩
  else r

/-! ### Field-level view of the parsing loop

`matchCat l` etc. say that the stripped line enters the corresponding branch
of the loop body; `catValOf l` etc. are the values that branch assigns. -/

/-- The stripped line enters the `CATEGORY:` branch. -/
def matchCat (l : PyStr) : Bool := catTok.isPrefixOf (pyStrip l)

/-- The stripped line enters the `REASON:` branch. -/
def matchReason (l : PyStr) : Bool := reasonTok.isPrefixOf (pyStrip l)

/-- The stripped line enters the `TAGS:` branch. -/
def matchTags (l : PyStr) : Bool := tagsTok.isPrefixOf (pyStrip l)

/-- The stripped line enters the `CONFIDENCE:` branch. -/
def matchConf (l : PyStr) : Bool := confTok.isPrefixOf (pyStrip l)

/-- Category value assigned by a `CATEGORY:` line. -/
def catValOf (l : PyStr) : PyStr := pyStrip (removeAll catTok (pyStrip l))

/-- Reason value assigned by a `REASON:` line. -/
def reasonValOf (l : PyStr) : PyStr := pyStrip (removeAll reasonTok (pyStrip l))

/-- Tag list assigned by a `TAGS:` line. -/
def tagsValOf (l : PyStr) : List PyStr :=
  (splitOnChar ',' (pyStrip (removeAll tagsTok (pyStrip l)))).filterMap
    (fun t => if (pyStrip t).isEmpty then none else some (pyStrip t))

/-- Confidence value assigned by a `CONFIDENCE:` line. -/
def confValOf (l : PyStr) : ℚ :=
  (pyFloat? (pyStrip (removeAll confTok (pyStrip l)))).getD (7 / 10)

/-- Modelled from the claim text of C4, read literally: scan the response
line by line; a line must itself *begin with* the field token, and the field
value is the trimmed *remainder* of the line after the token.  (The code
instead trims each line first and deletes *every* occurrence of the token;
this definition exists to be compared against `parse_ai_response`.) -/
def claimParseLine (st : ParsedAI) (line : PyStr) : ParsedAI :=
  if catTok.isPrefixOf line then
    { st with category := pyStrip (line.drop catTok.length) }
  else if reasonTok.isPrefixOf line then
    { st with reason := pyStrip (line.drop reasonTok.length) }
  else if tagsTok.isPrefixOf line then
    let tags_str := pyStrip (line.drop tagsTok.length)
    let newTags := (splitOnChar ',' tags_str).filterMap
      (fun t => if (pyStrip t).isEmpty then none else some (pyStrip t))
    { st with tags := newTags }
  else if confTok.isPrefixOf line then
    let conf_str := pyStrip (line.drop confTok.length)
    { st with confidence := (pyFloat? conf_str).getD (7 / 10) }
  else st

/-- The claim-literal parser (see `claimParseLine`). -/
def claimParse (ai_response : PyStr) : ParsedAI :=
  (splitOnChar '\n' ai_response).foldl claimParseLine defaultParsed

/-- `FileCategory` (src/file_type_config.py, lines 11-27). -/
inductive FileCategory where
  | code | data | configuration | documents | images | videos | audio
  | archives | iwork | design | applications | virtualMachines
  | systemFiles | fonts | other
deriving DecidableEq

/-- The `.value` string of each `FileCategory` member. -/
def FileCategory.value : FileCategory → PyStr
  | .code => "Code".data
  | .data => "Data".data
  | .configuration => "Configuration".data
  | .documents => "Documents".data
  | .images => "Images".data
  | .videos => "Videos".data
  | .audio => "Audio".data
  | .archives => "Archives".data
  | .iwork => "iWork".data
  | .design => "Design".data
  | .applications => "Applications".data
  | .virtualMachines => "Virtual Machines".data
  | .systemFiles => "System Files".data
  | .fonts => "Fonts".data
  | .other => "Other".data

/-- The enum constructor `FileCategory(s)`: looks a member up by value,
`none` where Python raises `ValueError`. -/
def FileCategory.fromValue? (s : PyStr) : Option FileCategory :=
  if s = "Code".data then some .code
  else if s = "Data".data then some .data
  else if s = "Configuration".data then some .configuration
  else if s = "Documents".data then some .documents
  else if s = "Images".data then some .images
  else if s = "Videos".data then some .videos
  else if s = "Audio".data then some .audio
  else if s = "Archives".data then some .archives
  else if s = "iWork".data then some .iwork
  else if s = "Design".data then some .design
  else if s = "Applications".data then some .applications
  else if s = "Virtual Machines".data then some .virtualMachines
  else if s = "System Files".data then some .systemFiles
  else if s = "Fonts".data then some .fonts
  else if s = "Other".data then some .other
  else none

/-- `FileTypeRule` (src/file_type_config.py, lines 29-38).  The opaque
`custom_processor` callable is modelled as `Option Unit`. -/
structure FileTypeRule where
  extensions : List PyStr
  category : FileCategory
  description : PyStr
  requires_ai_analysis : Bool := false
  ai_model_type : Option PyStr := none
  custom_processor : Option Unit := none
  priority : ℤ := 0
deriving DecidableEq

/-- Stable descending insertion used by `sortRules`: the inserted rule goes
in front of the first rule whose priority does not exceed its own. -/
def insertRule (r : FileTypeRule) : List FileTypeRule → List FileTypeRule
  | [] => [r]
  | s :: t => if s.priority ≤ r.priority then r :: s :: t else s :: insertRule r t

/-- Python's `list.sort(key=lambda x: x.priority, reverse=True)` is a stable
sort by descending priority; `sortRules` (stable descending insertion sort)
is extensionally that sort. -/
def sortRules : List FileTypeRule → List FileTypeRule
  | [] => []
  | r :: t => insertRule r (sortRules t)

/-- Proof device: where a freshly appended rule lands when a sorted table is
re-sorted stably — after every rule of at least its priority.  (`sortRules
(l ++ [r]) = slotIn r (sortRules l)`.) -/
def slotIn (r : FileTypeRule) : List FileTypeRule → List FileTypeRule
  | [] => [r]
  | s :: t => if r.priority ≤ s.priority then s :: slotIn r t else r :: s :: t

/-- `FileTypeManager.add_rule` (lines 161-165): append, then re-sort by
descending priority. -/
def add_rule (rules : List FileTypeRule) (r : FileTypeRule) : List FileTypeRule :=
  sortRules (rules ++ [r])

/-- A rule table built by successive `add_rule` calls from an empty list.
Every table the manager ever holds is of this shape: the constructor and
`import_config` only add rules through `add_rule`, and `remove_rule` filters
a sorted list, which `buildTable` reproduces (`buildTable t = t` for sorted
`t`). -/
def buildTable (rs : List FileTypeRule) : List FileTypeRule :=
  rs.foldl add_rule []

/-- `FileTypeManager.get_rule_for_extension` (lines 171-177): lowercase the
extension, return the first rule (in list order) containing it. -/
def get_rule_for_extension (rules : List FileTypeRule) (extension : PyStr) :
    Option FileTypeRule :=
  let e := pyLower extension
  rules.find? (fun r => decide (e ∈ r.extensions))

/-- One entry of the exported configuration dictionary
(`export_config`, lines 206-221). -/
structure RuleDict where
  extensions : List PyStr
  category : PyStr
  description : PyStr
  requires_ai_analysis : Bool
  ai_model_type : Option PyStr
  priority : ℤ
deriving DecidableEq

/-- `FileTypeManager.export_config` (lines 206-221). -/
def export_config (rules : List FileTypeRule) : List RuleDict :=
  rules.map (fun r =>
    ⟨r.extensions, r.category.value, r.description, r.requires_ai_analysis,
      r.ai_model_type, r.priority⟩)

/-- `FileTypeManager.import_config` (lines 223-235): clear the table, then
`add_rule` each entry in order; `none` models the `ValueError` that
`FileCategory(...)` raises on an unknown category string. -/
def import_config (config : List RuleDict) : Option (List FileTypeRule) :=
  config.foldlM
    (fun t d =>
      (FileCategory.fromValue? d.category).map
        (fun c => add_rule t
          ⟨d.extensions, c, d.description, d.requires_ai_analysis,
            d.ai_model_type, none, d.priority⟩))
    []

/-- What survives an export/import round trip: everything but the
(unexported) `custom_processor`. -/
def stripProc (r : FileTypeRule) : FileTypeRule := { r with custom_processor := none }

/-- `os.path.basename` (POSIX): the part after the last `/`. -/
def basename (p : PyStr) : PyStr :=
  (p.reverse.takeWhile (fun c => !(c == '/'))).reverse

/-- The extension part of `os.path.splitext` on a basename: the suffix from
the last dot, provided some earlier character of the name is not a dot
(leading dots alone never start an extension). -/
def splitextExt (name : PyStr) : PyStr :=
  let afterRev := name.reverse.takeWhile (fun c => !(c == '.'))
  if afterRev.length = name.length then []
  else
    let base := name.take (name.length - afterRev.length - 1)
    if base.any (fun c => !(c == '.')) then '.' :: afterRev.reverse else []

/-- `os.path.join` (POSIX) for two components. -/
def pyJoin (a b : PyStr) : PyStr :=
  if b.head? == some '/' then b
  else if a.isEmpty || (a.getLast? == some '/') then a ++ b
  else a ++ '/' :: b

/-- One operation dictionary appended by `process_files_with_ai`
(src/main_ui_compatible.py, lines 182-188). -/
structure Operation where
  source : PyStr
  destination : PyStr
  type : PyStr
  description : PyStr
  category : PyStr
deriving DecidableEq

/-- The per-file body of `process_files_with_ai`
(src/main_ui_compatible.py, lines 149-188).  `readText` is the
`open`/`read` oracle (`none` models the exception caught on line 169);
`textAI`/`imageAI` are `analyze_text_with_ai`/`analyze_image_with_ai`,
which catch internally and are therefore total oracles.  With those
collaborators abstracted, every sub-step is total, so the outer defensive
`try`/`except` of the loop never fires in the model. -/
def processOne (rules : List FileTypeRule) (output_path : PyStr)
    (readText : PyStr → Option PyStr) (textAI imageAI : PyStr → PyStr)
    (file_path : PyStr) : Operation :=
  let file_name := basename file_path
  let file_ext := pyLower (splitextExt file_name)
  match get_rule_for_extension rules file_ext with
  | some rule =>
    let category := rule.category.value
    let description :=
      if rule.requires_ai_analysis then
        if rule.ai_model_type == some ("text".data) then
          match readText file_path with
          | some content => textAI content
          | none => rule.description
        else if rule.ai_model_type == some ("image".data) then imageAI file_path
        else rule.description
      else rule.description
    ⟨file_path, pyJoin (pyJoin output_path category) file_name,
      "move".data, description, category⟩
  | none =>
    ⟨file_path, pyJoin (pyJoin output_path ("Other".data)) file_name,
      "move".data, "Other file".data, "Other".data⟩

/-- `process_files_with_ai` (src/main_ui_compatible.py, lines 145-194):
one operation per input path. -/
def process_files_with_ai (rules : List FileTypeRule) (file_paths : List PyStr)
    (output_path : PyStr) (readText : PyStr → Option PyStr)
    (textAI imageAI : PyStr → PyStr) : List Operation :=
  file_paths.map (processOne rules output_path readText textAI imageAI)

/-- The category `process_files_with_ai` resolves for a path: the rule's
category value, or `"Other"` for unknown extensions. -/
def resolvedCategory (rules : List FileTypeRule) (file_path : PyStr) : PyStr :=
  match get_rule_for_extension rules (pyLower (splitextExt (basename file_path))) with
  | some rule => rule.category.value
  | none => "Other".data

/-- A line either is no `CONFIDENCE:` line, or the value it would assign
parses into `[0, 1]` (or fails to parse). -/
def confLineOk (l : PyStr) : Bool :=
  !(matchConf l) ||
    (match pyFloat? (pyStrip (removeAll confTok (pyStrip l))) with
     | some v => decide (0 ≤ v ∧ v ≤ 1)
     | none => true)

/-- Proof devices: the constituent pieces of `aiErrorResponse`
(leading/trailing whitespace block, its four lines, and the parts of its
`REASON:` line). -/
def wsIndent : PyStr := "\n            ".data

/-- First line of the runtime-error fallback response (after the strip). -/
def errLine1 : PyStr := "CATEGORY: EXTENSION_BASED".data

/-- Fixed part of the second (reason) line, with its indentation. -/
def errLine2 : PyStr := "            REASON: AI analysis failed due to technical error: ".data

/-- Third line of the runtime-error fallback response. -/
def errLine3 : PyStr := "            TAGS: error, ai-failed".data

/-- Fourth line of the runtime-error fallback response. -/
def errLine4 : PyStr := "            CONFIDENCE: 0.5".data

/-- The response text from the first line up to the embedded message. -/
def errCore1 : PyStr :=
  "CATEGORY: EXTENSION_BASED\n            REASON: AI analysis failed due to technical error: ".data

/-- The response text after the embedded message, trailing whitespace
stripped. -/
def errCore2 : PyStr :=
  "\n            TAGS: error, ai-failed\n            CONFIDENCE: 0.5".data

/-- The reason line without its indentation. -/
def reasonLine : PyStr := "REASON: AI analysis failed due to technical error: ".data

/-- The failure text common to every parsed reason of a runtime error. -/
def failCore : PyStr := "AI analysis failed due to technical error".data

/-- Two joint prefixes of the same list are nested: the shorter is a prefix
of the longer. -/
theorem isPrefixOf_of_joint :
    ∀ (t1 t2 x : PyStr), t1.isPrefixOf x = true → t2.isPrefixOf x = true →
      t1.length ≤ t2.length → t1.isPrefixOf t2 = true := by
  intro t1
  induction t1 with
  | nil => intro t2 x _ _ _; simp [List.isPrefixOf]
  | cons a as ih =>
    intro t2 x h1 h2 hlen
    match t2, x with
    | [], _ => simp at hlen
    | b :: bs, [] => simp [List.isPrefixOf] at h1
    | b :: bs, c :: cs =>
      simp only [List.isPrefixOf, Bool.and_eq_true, beq_iff_eq] at h1 h2 ⊢
      refine ⟨h1.1.trans h2.1.symm, ih bs cs h1.2 h2.2 ?_⟩
      simpa using hlen

/-- The four branch tests are mutually exclusive (their tokens are not
prefixes of one another). -/
theorem matchCat_false_of_reason {l : PyStr} (h : matchReason l = true) :
    matchCat l = false := by
  by_contra hc
  rw [Bool.not_eq_false] at hc
  have := isPrefixOf_of_joint reasonTok catTok (pyStrip l) h hc (by decide)
  exact absurd this (by decide)

/-- A `TAGS:` line is not a `CATEGORY:` line. -/
theorem matchCat_false_of_tags {l : PyStr} (h : matchTags l = true) :
    matchCat l = false := by
  by_contra hc
  rw [Bool.not_eq_false] at hc
  have := isPrefixOf_of_joint tagsTok catTok (pyStrip l) h hc (by decide)
  exact absurd this (by decide)

/-- A `TAGS:` line is not a `REASON:` line. -/
theorem matchReason_false_of_tags {l : PyStr} (h : matchTags l = true) :
    matchReason l = false := by
  by_contra hc
  rw [Bool.not_eq_false] at hc
  have := isPrefixOf_of_joint tagsTok reasonTok (pyStrip l) h hc (by decide)
  exact absurd this (by decide)

/-- A `CONFIDENCE:` line is not a `CATEGORY:` line. -/
theorem matchCat_false_of_conf {l : PyStr} (h : matchConf l = true) :
    matchCat l = false := by
  by_contra hc
  rw [Bool.not_eq_false] at hc
  have := isPrefixOf_of_joint catTok confTok (pyStrip l) hc h (by decide)
  exact absurd this (by decide)

/-- A `CONFIDENCE:` line is not a `REASON:` line. -/
theorem matchReason_false_of_conf {l : PyStr} (h : matchConf l = true) :
    matchReason l = false := by
  by_contra hc
  rw [Bool.not_eq_false] at hc
  have := isPrefixOf_of_joint reasonTok confTok (pyStrip l) hc h (by decide)
  exact absurd this (by decide)

/-- A `CONFIDENCE:` line is not a `TAGS:` line. -/
theorem matchTags_false_of_conf {l : PyStr} (h : matchConf l = true) :
    matchTags l = false := by
  by_contra hc
  rw [Bool.not_eq_false] at hc
  have := isPrefixOf_of_joint tagsTok confTok (pyStrip l) hc h (by decide)
  exact absurd this (by decide)

/-- `parseLine`, rewritten through the branch tests and branch values. -/
theorem parseLine_eq (st : ParsedAI) (l : PyStr) :
    parseLine st l =
      if matchCat l then { st with category := catValOf l }
      else if matchReason l then { st with reason := reasonValOf l }
      else if matchTags l then { st with tags := tagsValOf l }
      else if matchConf l then { st with confidence := confValOf l }
      else st := rfl

/-- A line entering no branch leaves the loop state unchanged. -/
theorem parseLine_noMatch {st : ParsedAI} {l : PyStr}
    (h1 : matchCat l = false) (h2 : matchReason l = false)
    (h3 : matchTags l = false) (h4 : matchConf l = false) :
    parseLine st l = st := by
  rw [parseLine_eq, h1, h2, h3, h4]; rfl

/-- `category` is only written by `CATEGORY:` lines. -/
theorem parseLine_cat_pres (st : ParsedAI) (l : PyStr) (h : matchCat l = false) :
    (parseLine st l).category = st.category := by
  rw [parseLine_eq, h]
  by_cases h2 : matchReason l <;> by_cases h3 : matchTags l <;>
    by_cases h4 : matchConf l <;> simp [h2, h3, h4]

/-- A `CATEGORY:` line writes `catValOf`. -/
theorem parseLine_cat_set (st : ParsedAI) (l : PyStr) (h : matchCat l = true) :
    (parseLine st l).category = catValOf l := by
  rw [parseLine_eq, h]; rfl

/-- `reason` is only written by `REASON:` lines. -/
theorem parseLine_reason_pres (st : ParsedAI) (l : PyStr) (h : matchReason l = false) :
    (parseLine st l).reason = st.reason := by
  rw [parseLine_eq, h]
  by_cases h1 : matchCat l <;> by_cases h3 : matchTags l <;>
    by_cases h4 : matchConf l <;> simp [h1, h3, h4]

/-- A `REASON:` line writes `reasonValOf`. -/
theorem parseLine_reason_set (st : ParsedAI) (l : PyStr) (h : matchReason l = true) :
    (parseLine st l).reason = reasonValOf l := by
  rw [parseLine_eq, matchCat_false_of_reason h, h]; rfl

/-- `tags` is only written by `TAGS:` lines. -/
theorem parseLine_tags_pres (st : ParsedAI) (l : PyStr) (h : matchTags l = false) :
    (parseLine st l).tags = st.tags := by
  rw [parseLine_eq, h]
  by_cases h1 : matchCat l <;> by_cases h2 : matchReason l <;>
    by_cases h4 : matchConf l <;> simp [h1, h2, h4]

/-- A `TAGS:` line writes `tagsValOf`. -/
theorem parseLine_tags_set (st : ParsedAI) (l : PyStr) (h : matchTags l = true) :
    (parseLine st l).tags = tagsValOf l := by
  rw [parseLine_eq, matchCat_false_of_tags h, matchReason_false_of_tags h, h]; rfl

/-- `confidence` is only written by `CONFIDENCE:` lines. -/
theorem parseLine_conf_pres (st : ParsedAI) (l : PyStr) (h : matchConf l = false) :
    (parseLine st l).confidence = st.confidence := by
  rw [parseLine_eq, h]
  by_cases h1 : matchCat l <;> by_cases h2 : matchReason l <;>
    by_cases h3 : matchTags l <;> simp [h1, h2, h3]

/-- A `CONFIDENCE:` line writes `confValOf`. -/
theorem parseLine_conf_set (st : ParsedAI) (l : PyStr) (h : matchConf l = true) :
    (parseLine st l).confidence = confValOf l := by
  rw [parseLine_eq, matchCat_false_of_conf h, matchReason_false_of_conf h,
    matchTags_false_of_conf h, h]; rfl

/-- Over lines none of which touch a given field, the field keeps its value. -/
theorem foldl_get_untouched {α : Type} (get : ParsedAI → α) (touch : PyStr → Bool)
    (hpres : ∀ st l, touch l = false → get (parseLine st l) = get st) :
    ∀ (ls : List PyStr) (st : ParsedAI), (∀ l ∈ ls, touch l = false) →
      get (ls.foldl parseLine st) = get st := by
  intro ls
  induction ls with
  | nil => intro st _; rfl
  | cons a t ih =>
    intro st h
    rw [List.foldl_cons, ih _ (fun l hl => h l (List.mem_cons_of_mem a hl)),
      hpres st a (h a (List.mem_cons_self a t))]

/-- The last line touching a field determines its final value: each touching
line overwrites whatever earlier lines assigned. -/
theorem foldl_get_last {α : Type} (get : ParsedAI → α) (touch : PyStr → Bool)
    (val : PyStr → α)
    (hpres : ∀ st l, touch l = false → get (parseLine st l) = get st)
    (hset : ∀ st l, touch l = true → get (parseLine st l) = val l)
    (p q : List PyStr) (l : PyStr) (st : ParsedAI)
    (hl : touch l = true) (hq : ∀ x ∈ q, touch x = false) :
    get ((p ++ l :: q).foldl parseLine st) = val l := by
  rw [List.foldl_append, List.foldl_cons,
    foldl_get_untouched get touch hpres q _ hq, hset _ l hl]

/-- Unfolds `pyFloat?` on a successful raw parse. -/
theorem pyFloat?_eq_some {s : PyStr} {n : ℤ} {k : ℕ} {e : ℤ}
    (h : pyFloatRaw s = some (n, k, e)) :
    pyFloat? s = some ((n : ℚ) / 10 ^ k * (10 : ℚ) ^ e) := by
  simp [pyFloat?, h]

/-- Unfolds `pyFloat?` on a failed raw parse. -/
theorem pyFloat?_eq_none {s : PyStr} (h : pyFloatRaw s = none) :
    pyFloat? s = none := by
  simp [pyFloat?, h]

/-- The final category comes from the last `CATEGORY:` line. -/
theorem parse_cat_last {s : PyStr} {p q : List PyStr} {l : PyStr}
    (hd : splitOnChar '\n' (pyStrip s) = p ++ l :: q)
    (hl : matchCat l = true) (hq : ∀ x ∈ q, matchCat x = false) :
    (parse_ai_response s).category = catValOf l := by
  unfold parse_ai_response
  rw [hd]
  exact foldl_get_last (fun st => st.category) matchCat catValOf
    parseLine_cat_pres parseLine_cat_set p q l defaultParsed hl hq

/-- The final reason comes from the last `REASON:` line. -/
theorem parse_reason_last {s : PyStr} {p q : List PyStr} {l : PyStr}
    (hd : splitOnChar '\n' (pyStrip s) = p ++ l :: q)
    (hl : matchReason l = true) (hq : ∀ x ∈ q, matchReason x = false) :
    (parse_ai_response s).reason = reasonValOf l := by
  unfold parse_ai_response
  rw [hd]
  exact foldl_get_last (fun st => st.reason) matchReason reasonValOf
    parseLine_reason_pres parseLine_reason_set p q l defaultParsed hl hq

/-- The final tag list comes from the last `TAGS:` line. -/
theorem parse_tags_last {s : PyStr} {p q : List PyStr} {l : PyStr}
    (hd : splitOnChar '\n' (pyStrip s) = p ++ l :: q)
    (hl : matchTags l = true) (hq : ∀ x ∈ q, matchTags x = false) :
    (parse_ai_response s).tags = tagsValOf l := by
  unfold parse_ai_response
  rw [hd]
  exact foldl_get_last (fun st => st.tags) matchTags tagsValOf
    parseLine_tags_pres parseLine_tags_set p q l defaultParsed hl hq

/-- The final confidence comes from the last `CONFIDENCE:` line. -/
theorem parse_conf_last {s : PyStr} {p q : List PyStr} {l : PyStr}
    (hd : splitOnChar '\n' (pyStrip s) = p ++ l :: q)
    (hl : matchConf l = true) (hq : ∀ x ∈ q, matchConf x = false) :
    (parse_ai_response s).confidence = confValOf l := by
  unfold parse_ai_response
  rw [hd]
  exact foldl_get_last (fun st => st.confidence) matchConf confValOf
    parseLine_conf_pres parseLine_conf_set p q l defaultParsed hl hq

/-- Without a `CATEGORY:` line the category keeps its default. -/
theorem parse_cat_default {s : PyStr}
    (h : ∀ x ∈ splitOnChar '\n' (pyStrip s), matchCat x = false) :
    (parse_ai_response s).category = "Other".data :=
  foldl_get_untouched (fun st => st.category) matchCat parseLine_cat_pres _ _ h

/-- Without a `REASON:` line the reason keeps its default. -/
theorem parse_reason_default {s : PyStr}
    (h : ∀ x ∈ splitOnChar '\n' (pyStrip s), matchReason x = false) :
    (parse_ai_response s).reason = "AI analysis provided".data :=
  foldl_get_untouched (fun st => st.reason) matchReason parseLine_reason_pres _ _ h

/-- Without a `TAGS:` line the tag list keeps its default. -/
theorem parse_tags_default {s : PyStr}
    (h : ∀ x ∈ splitOnChar '\n' (pyStrip s), matchTags x = false) :
    (parse_ai_response s).tags = [] :=
  foldl_get_untouched (fun st => st.tags) matchTags parseLine_tags_pres _ _ h

/-- Without a `CONFIDENCE:` line the confidence keeps its default. -/
theorem parse_conf_default {s : PyStr}
    (h : ∀ x ∈ splitOnChar '\n' (pyStrip s), matchConf x = false) :
    (parse_ai_response s).confidence = 7 / 10 :=
  foldl_get_untouched (fun st => st.confidence) matchConf parseLine_conf_pres _ _ h

/-- Every enum category value is distinct from the sentinel and slash-free,
nonempty, and does not end in a slash (used for fallback and path lemmas). -/
theorem FileCategory.value_props (c : FileCategory) :
    c.value ≠ "EXTENSION_BASED".data ∧ c.value ≠ [] ∧ '/' ∉ c.value := by
  cases c <;> exact ⟨by decide, by decide, by decide⟩

/-- C1: for a file whose rule requires AI analysis, when the adapter comes
back with the sentinel category "EXTENSION_BASED" (AI failed or
unavailable), `categorize_by_content` returns the rule-derived extension
category — never "EXTENSION_BASED", and "Other" only when the rule's own
category is "Other" — while the adapter's description, tags and confidence
pass through unchanged. -/
theorem c1_extension_based_fallback (d : PyStr) (fc : FileCategory) (tor : Bool)
    (gen : Except PyStr PyStr) (oFail : Option PyStr)
    (h : (categorize_with_ai d tor gen oFail).category = "EXTENSION_BASED".data) :
    categorize_by_content d fc.value tor gen oFail =
      ⟨fc.value, (categorize_with_ai d tor gen oFail).description,
        (categorize_with_ai d tor gen oFail).tags,
        (categorize_with_ai d tor gen oFail).confidence⟩ ∧
    (categorize_by_content d fc.value tor gen oFail).category ≠ "EXTENSION_BASED".data ∧
    ((categorize_by_content d fc.value tor gen oFail).category = "Other".data →
      fc.value = "Other".data) := by
  have hmain : categorize_by_content d fc.value tor gen oFail =
      ⟨fc.value, (categorize_with_ai d tor gen oFail).description,
        (categorize_with_ai d tor gen oFail).tags,
        (categorize_with_ai d tor gen oFail).confidence⟩ := by
    unfold categorize_by_content
    rw [if_pos h]
  refine ⟨hmain, ?_, ?_⟩
  · rw [hmain]
    exact (FileCategory.value_props fc).1
  · rw [hmain]
    exact fun hx => hx

/-- Witness for C1 at a concrete input: torch unavailable, rule category
`Documents`. -/
theorem c1_witness :
    categorize_by_content ("desc".data) (FileCategory.documents).value false (Except.ok []) none =
      ⟨(FileCategory.documents).value,
        (categorize_with_ai ("desc".data) false (Except.ok []) none).description,
        (categorize_with_ai ("desc".data) false (Except.ok []) none).tags,
        (categorize_with_ai ("desc".data) false (Except.ok []) none).confidence⟩ ∧
    (categorize_by_content ("desc".data) (FileCategory.documents).value false
        (Except.ok []) none).category ≠ "EXTENSION_BASED".data ∧
    ((categorize_by_content ("desc".data) (FileCategory.documents).value false
        (Except.ok []) none).category = "Other".data →
      (FileCategory.documents).value = "Other".data) :=
  c1_extension_based_fallback ("desc".data) FileCategory.documents false
    (Except.ok []) none (by decide)

/-- C10: when a response holds several lines for the same field prefix, the
later line overwrites the earlier one: the parsed field value is the one of
the last such line (for each of the four field prefixes). -/
theorem c10_last_match_wins (s : PyStr) :
    (∀ p q l e, splitOnChar '\n' (pyStrip s) = p ++ l :: q → e ∈ p →
      matchCat e = true → matchCat l = true → (∀ x ∈ q, matchCat x = false) →
      (parse_ai_response s).category = catValOf l) ∧
    (∀ p q l e, splitOnChar '\n' (pyStrip s) = p ++ l :: q → e ∈ p →
      matchReason e = true → matchReason l = true →
      (∀ x ∈ q, matchReason x = false) →
      (parse_ai_response s).reason = reasonValOf l) ∧
    (∀ p q l e, splitOnChar '\n' (pyStrip s) = p ++ l :: q → e ∈ p →
      matchTags e = true → matchTags l = true → (∀ x ∈ q, matchTags x = false) →
      (parse_ai_response s).tags = tagsValOf l) ∧
    (∀ p q l e, splitOnChar '\n' (pyStrip s) = p ++ l :: q → e ∈ p →
      matchConf e = true → matchConf l = true → (∀ x ∈ q, matchConf x = false) →
      (parse_ai_response s).confidence = confValOf l) := by
  refine ⟨?_, ?_, ?_, ?_⟩ <;> intro p q l e hd _ _ hl hq
  · exact parse_cat_last hd hl hq
  · exact parse_reason_last hd hl hq
  · exact parse_tags_last hd hl hq
  · exact parse_conf_last hd hl hq

/-- Witness for C10: two `CATEGORY:` lines and two `CONFIDENCE:` lines; the
second of each wins. -/
theorem c10_witness :
    (parse_ai_response ("CATEGORY: A\nCATEGORY: B\nCONFIDENCE: 0.2\nCONFIDENCE: 0.6".data)).category
      = "B".data ∧
    (parse_ai_response ("CATEGORY: A\nCATEGORY: B\nCONFIDENCE: 0.2\nCONFIDENCE: 0.6".data)).confidence
      = 3 / 5 := by
  constructor
  · have h := (c10_last_match_wins
        ("CATEGORY: A\nCATEGORY: B\nCONFIDENCE: 0.2\nCONFIDENCE: 0.6".data)).1
      ["CATEGORY: A".data] ["CONFIDENCE: 0.2".data, "CONFIDENCE: 0.6".data]
      ("CATEGORY: B".data) ("CATEGORY: A".data)
      (by decide) (by decide) (by decide) (by decide) (by decide)
    exact h.trans (by decide)
  · have h := (c10_last_match_wins
        ("CATEGORY: A\nCATEGORY: B\nCONFIDENCE: 0.2\nCONFIDENCE: 0.6".data)).2.2.2
      ["CATEGORY: A".data, "CATEGORY: B".data, "CONFIDENCE: 0.2".data] []
      ("CONFIDENCE: 0.6".data) ("CONFIDENCE: 0.2".data)
      (by decide) (by decide) (by decide) (by decide) (by decide)
    rw [h]
    unfold confValOf
    rw [show pyStrip (removeAll confTok (pyStrip ("CONFIDENCE: 0.6".data))) = "0.6".data
      from by decide]
    rw [pyFloat?_eq_some (show pyFloatRaw ("0.6".data) = some (6, 1, 0) from by decide)]
    norm_num

/-- C4 counterexample: on the response `"X\n CATEGORY: ACATEGORY:B"` the code
assigns category `"AB"` — the line is trimmed before prefix-matching and
*every* occurrence of the token is deleted — while the claim's literal
parsing contract (`claimParse`: a line must itself begin with the token, and
the value is the trimmed remainder after it) would leave the default
`"Other"`; the trimmed remainder `"ACATEGORY:B"` is produced by neither. -/
theorem c4_counterexample :
    (parse_ai_response ("X\n CATEGORY: ACATEGORY:B".data)).category = "AB".data ∧
    (claimParse ("X\n CATEGORY: ACATEGORY:B".data)).category = "Other".data ∧
    "AB".data ≠ "ACATEGORY:B".data ∧ "AB".data ≠ "Other".data := by
  refine ⟨by decide, by decide, by decide, by decide⟩

/-- C4 (amended): `parse_ai_response` scans the whitespace-trimmed response
line by line, trimming each line before matching; a line whose trimmed form
begins with "CATEGORY:" ("REASON:", "TAGS:", "CONFIDENCE:") assigns that
field the line with every occurrence of the token deleted and the result
trimmed (`catValOf` etc., the last such line winning); the TAGS value is
split on commas, each segment trimmed, empty segments dropped; the
CONFIDENCE value is parsed as a float, defaulting to 0.7 on parse failure;
when no line matches any prefix the defaults ("Other",
"AI analysis provided", no tags, 0.7) are returned; and
`categorize_with_ai` appends the parsed reason to the prior description as
"{prior} | {reason}". -/
theorem c4_parsing_contract (s : PyStr) :
    ((∀ x ∈ splitOnChar '\n' (pyStrip s),
        matchCat x = false ∧ matchReason x = false ∧
        matchTags x = false ∧ matchConf x = false) →
      (parse_ai_response s).category = "Other".data ∧
      (parse_ai_response s).reason = "AI analysis provided".data ∧
      (parse_ai_response s).tags = [] ∧
      (parse_ai_response s).confidence = 7 / 10) ∧
    (∀ p q l, splitOnChar '\n' (pyStrip s) = p ++ l :: q → matchCat l = true →
      (∀ x ∈ q, matchCat x = false) →
      (parse_ai_response s).category = catValOf l) ∧
    (∀ p q l, splitOnChar '\n' (pyStrip s) = p ++ l :: q → matchReason l = true →
      (∀ x ∈ q, matchReason x = false) →
      (parse_ai_response s).reason = reasonValOf l) ∧
    (∀ p q l, splitOnChar '\n' (pyStrip s) = p ++ l :: q → matchTags l = true →
      (∀ x ∈ q, matchTags x = false) →
      (parse_ai_response s).tags = tagsValOf l) ∧
    (∀ p q l, splitOnChar '\n' (pyStrip s) = p ++ l :: q → matchConf l = true →
      (∀ x ∈ q, matchConf x = false) →
      (parse_ai_response s).confidence = confValOf l) ∧
    (∀ (d : PyStr) (tor : Bool) (gen : Except PyStr PyStr),
      (categorize_with_ai d tor gen none).description
        = d ++ " | ".data ++ (parse_ai_response (getAiCategorization tor gen)).reason) := by
  refine ⟨?_, ?_, ?_, ?_, ?_, ?_⟩
  · intro h
    exact ⟨parse_cat_default (fun x hx => (h x hx).1),
      parse_reason_default (fun x hx => (h x hx).2.1),
      parse_tags_default (fun x hx => (h x hx).2.2.1),
      parse_conf_default (fun x hx => (h x hx).2.2.2)⟩
  · intro p q l hd hl hq
    exact parse_cat_last hd hl hq
  · intro p q l hd hl hq
    exact parse_reason_last hd hl hq
  · intro p q l hd hl hq
    exact parse_tags_last hd hl hq
  · intro p q l hd hl hq
    exact parse_conf_last hd hl hq
  · intro d tor gen
    rfl

/-- Witness for C4 (amended) at a concrete response: TAGS segments are
trimmed with empties dropped, and CONFIDENCE parses to 1/2. -/
theorem c4_witness :
    (parse_ai_response ("TAGS: a,, b\nCONFIDENCE: 0.5".data)).tags
      = ["a".data, "b".data] ∧
    (parse_ai_response ("TAGS: a,, b\nCONFIDENCE: 0.5".data)).confidence = 1 / 2 := by
  constructor
  · have h := (c4_parsing_contract ("TAGS: a,, b\nCONFIDENCE: 0.5".data)).2.2.2.1
      [] ["CONFIDENCE: 0.5".data] ("TAGS: a,, b".data)
      (by decide) (by decide) (by decide)
    exact h.trans (by decide)
  · have h := (c4_parsing_contract ("TAGS: a,, b\nCONFIDENCE: 0.5".data)).2.2.2.2.1
      ["TAGS: a,, b".data] [] ("CONFIDENCE: 0.5".data)
      (by decide) (by decide) (by decide)
    rw [h]
    unfold confValOf
    rw [show pyStrip (removeAll confTok (pyStrip ("CONFIDENCE: 0.5".data))) = "0.5".data
      from by decide]
    rw [pyFloat?_eq_some (show pyFloatRaw ("0.5".data) = some (5, 1, 0) from by decide)]
    norm_num

/-- A confidence value assigned by an admissible `CONFIDENCE:` line stays in
the unit interval. -/
theorem confValOf_bounded {l : PyStr} (hm : matchConf l = true)
    (hok : confLineOk l = true) : 0 ≤ confValOf l ∧ confValOf l ≤ 1 := by
  unfold confLineOk at hok
  rw [hm] at hok
  unfold confValOf
  cases hp : pyFloat? (pyStrip (removeAll confTok (pyStrip l))) with
  | none => constructor <;> norm_num
  | some v =>
    rw [hp] at hok
    simp only [Bool.not_true, Bool.false_or] at hok
    have := of_decide_eq_true hok
    simpa using this

/-- The parser's confidence stays in the unit interval over any line list
whose `CONFIDENCE:` lines are admissible. -/
theorem foldl_conf_bounded :
    ∀ (ls : List PyStr) (st : ParsedAI), 0 ≤ st.confidence → st.confidence ≤ 1 →
      (∀ l ∈ ls, confLineOk l = true) →
      0 ≤ (ls.foldl parseLine st).confidence ∧ (ls.foldl parseLine st).confidence ≤ 1 := by
  intro ls
  induction ls with
  | nil => intro st h0 h1 _; exact ⟨h0, h1⟩
  | cons a t ih =>
    intro st h0 h1 hok
    rw [List.foldl_cons]
    by_cases hm : matchConf a
    · have hb := confValOf_bounded hm (hok a (List.mem_cons_self a t))
      exact ih _ (by rw [parseLine_conf_set st a hm]; exact hb.1)
        (by rw [parseLine_conf_set st a hm]; exact hb.2)
        (fun l hl => hok l (List.mem_cons_of_mem a hl))
    · rw [Bool.not_eq_true] at hm
      exact ih _ (by rw [parseLine_conf_pres st a hm]; exact h0)
        (by rw [parseLine_conf_pres st a hm]; exact h1)
        (fun l hl => hok l (List.mem_cons_of_mem a hl))

/-- C9 counterexample: the response `"CONFIDENCE: 2.5"` yields confidence
5/2, outside the interval [0, 1] the claim asserts. -/
theorem c9_counterexample :
    (parse_ai_response ("CONFIDENCE: 2.5".data)).confidence = 5 / 2 ∧
    ¬ ((parse_ai_response ("CONFIDENCE: 2.5".data)).confidence ≤ 1) := by
  have h := @parse_conf_last ("CONFIDENCE: 2.5".data) [] [] ("CONFIDENCE: 2.5".data)
    (by decide) (by decide) (by decide)
  have h2 : confValOf ("CONFIDENCE: 2.5".data) = 5 / 2 := by
    unfold confValOf
    rw [show pyStrip (removeAll confTok (pyStrip ("CONFIDENCE: 2.5".data))) = "2.5".data
      from by decide]
    rw [pyFloat?_eq_some (show pyFloatRaw ("2.5".data) = some (25, 1, 0) from by decide)]
    norm_num
  rw [h, h2]
  norm_num

/-- C9 (amended): the parsed confidence is the default 0.7, the fallback 0.7
of an unparseable `CONFIDENCE:` line, or the parsed float of the last
`CONFIDENCE:` line; hence it lies in [0, 1] whenever every `CONFIDENCE:`
line that parses yields a value in [0, 1] (in particular whenever there is
no `CONFIDENCE:` line), and `categorize_by_content` always returns the
adapter's confidence unchanged. -/
theorem c9_confidence_amended (s : PyStr)
    (h : ∀ l ∈ splitOnChar '\n' (pyStrip s), confLineOk l = true) :
    0 ≤ (parse_ai_response s).confidence ∧ (parse_ai_response s).confidence ≤ 1 ∧
    ∀ (d ec : PyStr) (tor : Bool) (gen : Except PyStr PyStr) (oFail : Option PyStr),
      (categorize_by_content d ec tor gen oFail).confidence
        = (categorize_with_ai d tor gen oFail).confidence := by
  have hb := foldl_conf_bounded (splitOnChar '\n' (pyStrip s)) defaultParsed
    (by norm_num [defaultParsed]) (by norm_num [defaultParsed]) h
  refine ⟨hb.1, hb.2, ?_⟩
  intro d ec tor gen oFail
  unfold categorize_by_content
  by_cases hc : (categorize_with_ai d tor gen oFail).category = "EXTENSION_BASED".data
  · rw [if_pos hc]
  · rw [if_neg hc]

/-- Witness for C9 (amended) at a concrete response without a
`CONFIDENCE:` line. -/
theorem c9_witness :
    0 ≤ (parse_ai_response ("CATEGORY: A".data)).confidence ∧
    (parse_ai_response ("CATEGORY: A".data)).confidence ≤ 1 ∧
    ∀ (d ec : PyStr) (tor : Bool) (gen : Except PyStr PyStr) (oFail : Option PyStr),
      (categorize_by_content d ec tor gen oFail).confidence
        = (categorize_with_ai d tor gen oFail).confidence :=
  c9_confidence_amended ("CATEGORY: A".data) (by decide)

/-- `insertRule` is a permutation-preserving insertion. -/
theorem insertRule_perm (r : FileTypeRule) :
    ∀ t : List FileTypeRule, List.Perm (insertRule r t) (r :: t) := by
  intro t
  induction t with
  | nil => exact List.Perm.refl _
  | cons s t ih =>
    simp only [insertRule]
    by_cases h : s.priority ≤ r.priority
    · rw [if_pos h]
    · rw [if_neg h]
      exact (ih.cons s).trans (List.Perm.swap r s t)

/-- `sortRules` permutes its input. -/
theorem sortRules_perm : ∀ l : List FileTypeRule, List.Perm (sortRules l) l := by
  intro l
  induction l with
  | nil => exact List.Perm.refl _
  | cons r t ih => exact (insertRule_perm r (sortRules t)).trans (ih.cons r)

/-- `insertRule` preserves descending sortedness. -/
theorem insertRule_sorted {t : List FileTypeRule} (r : FileTypeRule)
    (h : t.Pairwise (fun a b => b.priority ≤ a.priority)) :
    (insertRule r t).Pairwise (fun a b => b.priority ≤ a.priority) := by
  induction t with
  | nil => simp [insertRule]
  | cons s t ih =>
    rw [List.pairwise_cons] at h
    simp only [insertRule]
    by_cases hc : s.priority ≤ r.priority
    · rw [if_pos hc, List.pairwise_cons]
      refine ⟨?_, List.pairwise_cons.mpr h⟩
      intro b hb
      rcases List.mem_cons.mp hb with rfl | hb
      · exact hc
      · exact (h.1 b hb).trans hc
    · rw [if_neg hc, List.pairwise_cons]
      refine ⟨?_, ih h.2⟩
      intro b hb
      rcases List.mem_cons.mp ((insertRule_perm r t).mem_iff.mp hb) with rfl | hb'
      · omega
      · exact h.1 b hb'

/-- The output of `sortRules` is sorted by descending priority. -/
theorem sortRules_sorted :
    ∀ l : List FileTypeRule,
      (sortRules l).Pairwise (fun a b => b.priority ≤ a.priority) := by
  intro l
  induction l with
  | nil => simp [sortRules]
  | cons r t ih => exact insertRule_sorted r ih

/-- A sorted list is a fixed point of `sortRules`. -/
theorem sortRules_of_sorted :
    ∀ {l : List FileTypeRule},
      l.Pairwise (fun a b => b.priority ≤ a.priority) → sortRules l = l := by
  intro l
  induction l with
  | nil => intro _; rfl
  | cons a t ih =>
    intro h
    rw [List.pairwise_cons] at h
    show insertRule a (sortRules t) = a :: t
    rw [ih h.2]
    cases t with
    | nil => rfl
    | cons s t' =>
      show insertRule a (s :: t') = a :: s :: t'
      simp only [insertRule]
      rw [if_pos (h.1 s (List.mem_cons_self s t'))]

/-- `insertRule` (insert before equals) and `slotIn` (insert after equals)
commute; this is the heart of `sortRules (l ++ [r]) = slotIn r (sortRules l)`. -/
theorem insertRule_slotIn_comm (x r : FileTypeRule) :
    ∀ m : List FileTypeRule, insertRule x (slotIn r m) = slotIn r (insertRule x m) := by
  intro m
  induction m with
  | nil => simp [slotIn, insertRule]
  | cons s m ih =>
    by_cases h1 : r.priority ≤ s.priority <;> by_cases h2 : s.priority ≤ x.priority
    · have h3 : r.priority ≤ x.priority := le_trans h1 h2
      simp [slotIn, insertRule, h1, h2, h3]
    · simp [slotIn, insertRule, h1, h2, ih]
    · by_cases h3 : r.priority ≤ x.priority <;> simp [slotIn, insertRule, h1, h2, h3]
    · have h3 : ¬ r.priority ≤ x.priority := by omega
      simp [slotIn, insertRule, h1, h2, h3]

/-- Stable re-sort of a sorted list with one appended element: the new
element slots in after all rules of at least its priority. -/
theorem sortRules_append_single :
    ∀ (l : List FileTypeRule) (r : FileTypeRule),
      sortRules (l ++ [r]) = slotIn r (sortRules l) := by
  intro l r
  induction l with
  | nil => rfl
  | cons a l ih =>
    show insertRule a (sortRules (l ++ [r])) = slotIn r (insertRule a (sortRules l))
    rw [ih, insertRule_slotIn_comm]

/-- Folding `add_rule` over a batch from a sorted accumulator is one big
stable sort. -/
theorem foldl_add_rule :
    ∀ (rs t : List FileTypeRule),
      rs.foldl add_rule (sortRules t) = sortRules (t ++ rs) := by
  intro rs
  induction rs with
  | nil => intro t; simp
  | cons r rs ih =>
    intro t
    rw [List.foldl_cons]
    have hstep : add_rule (sortRules t) r = sortRules (t ++ [r]) := by
      unfold add_rule
      rw [sortRules_append_single (sortRules t) r, sortRules_append_single t r,
        sortRules_of_sorted (sortRules_sorted t)]
    rw [hstep, ih (t ++ [r]), List.append_assoc]
    rfl

/-- A table built by successive `add_rule` calls is the stable descending
sort of its insertion sequence. -/
theorem buildTable_eq_sortRules (rs : List FileTypeRule) :
    buildTable rs = sortRules rs := by
  have h := foldl_add_rule rs []
  simpa [buildTable] using h

/-- Inserting an element preserves sublists of the base list. -/
theorem sublist_insertRule (r : FileTypeRule) :
    ∀ {m s : List FileTypeRule}, List.Sublist s m → List.Sublist s (insertRule r m) := by
  intro m
  induction m with
  | nil =>
    intro s h
    rw [List.sublist_nil.mp h]
    exact List.nil_sublist _
  | cons d m ih =>
    intro s h
    simp only [insertRule]
    by_cases hc : d.priority ≤ r.priority
    · rw [if_pos hc]
      exact h.cons r
    · rw [if_neg hc]
      cases h with
      | cons _ h' => exact (ih h').cons d
      | cons₂ _ h' => exact (ih h').cons₂ d

/-- Inserting `a` in front of the non-greater-priority region places it
before every occurrence of a rule of priority at most `a`'s. -/
theorem pair_sub_insertRule {a b : FileTypeRule} (hpr : b.priority ≤ a.priority) :
    ∀ {m : List FileTypeRule}, b ∈ m → List.Sublist [a, b] (insertRule a m) := by
  intro m
  induction m with
  | nil => intro hb; cases hb
  | cons s m ih =>
    intro hb
    simp only [insertRule]
    by_cases hc : s.priority ≤ a.priority
    · rw [if_pos hc]
      exact List.Sublist.cons₂ a (List.singleton_sublist.mpr hb)
    · rw [if_neg hc]
      have hbs : b ≠ s := by
        intro he
        rw [he] at hpr
        omega
      rcases List.mem_cons.mp hb with he | hb'
      · exact absurd he hbs
      · exact (ih hb').cons s

/-- Stability of `sortRules`: if `a` appears before `b` and `b`'s priority
does not exceed `a`'s, `a` still appears before `b` after sorting. -/
theorem sortRules_stable {a b : FileTypeRule} (hpr : b.priority ≤ a.priority) :
    ∀ {l : List FileTypeRule}, List.Sublist [a, b] l → List.Sublist [a, b] (sortRules l) := by
  intro l
  induction l with
  | nil => intro h; cases h
  | cons c l ih =>
    intro h
    cases h with
    | cons _ h' => exact sublist_insertRule c (ih h')
    | cons₂ _ h' =>
      have hb : b ∈ sortRules l :=
        (sortRules_perm l).mem_iff.mpr (List.singleton_sublist.mp h')
      exact pair_sub_insertRule hpr hb

/-- In a descending-sorted list whose only matches are `r1` and `r2` with
`r2` of strictly lower priority, the first match is `r1`. -/
theorem find?_max_of_two {p : FileTypeRule → Bool} {r1 r2 : FileTypeRule}
    (hp1 : p r1 = true) (hlt : r2.priority < r1.priority) :
    ∀ {l : List FileTypeRule},
      l.Pairwise (fun a b => b.priority ≤ a.priority) → r1 ∈ l →
      (∀ r ∈ l, p r = true → r = r1 ∨ r = r2) → l.find? p = some r1 := by
  intro l
  induction l with
  | nil => intro _ h1 _; cases h1
  | cons a t ih =>
    intro hs h1 honly
    rw [List.pairwise_cons] at hs
    by_cases hpa : p a = true
    · rw [List.find?_cons_of_pos _ hpa]
      rcases honly a (List.mem_cons_self a t) hpa with rfl | rfl
      · rfl
      · have hne : r1 ≠ a := by
          intro he
          rw [he] at hlt
          omega
        have h1t : r1 ∈ t := by
          rcases List.mem_cons.mp h1 with he | h'
          · exact absurd he hne
          · exact h'
        have := hs.1 r1 h1t
        omega
    · rw [List.find?_cons_of_neg _ hpa]
      have h1t : r1 ∈ t := by
        rcases List.mem_cons.mp h1 with he | h'
        · rw [he] at hp1; exact absurd hp1 hpa
        · exact h'
      exact ih hs.2 h1t (fun r hr hpr => honly r (List.mem_cons_of_mem a hr) hpr)

/-- In a list with exactly two matches, of which an occurrence of `r1`
precedes an occurrence of `r2`, the first match is `r1`. -/
theorem find?_first_of_pair {p : FileTypeRule → Bool} {r1 r2 : FileTypeRule}
    (hp1 : p r1 = true) (hp2 : p r2 = true) :
    ∀ {l : List FileTypeRule}, List.Sublist [r1, r2] l → l.countP p = 2 →
      l.find? p = some r1 := by
  intro l
  induction l with
  | nil => intro h _; cases h
  | cons a t ih =>
    intro hsub hcount
    rw [List.countP_cons] at hcount
    by_cases hpa : p a = true
    · rw [List.find?_cons_of_pos _ hpa]
      cases hsub with
      | cons₂ _ h' => rfl
      | cons _ h' =>
        have h2 : 2 ≤ t.countP p := by
          have hle := h'.countP_le p
          have : List.countP p [r1, r2] = 2 := by
            simp [List.countP_cons, hp1, hp2]
          omega
        rw [hpa] at hcount
        simp at hcount
        omega
    · have ha1 : a ≠ r1 := by
        intro he
        rw [he] at hpa
        exact hpa hp1
      rw [List.find?_cons_of_neg _ hpa]
      have hsub' : List.Sublist [r1, r2] t := by
        cases hsub with
        | cons _ h' => exact h'
        | cons₂ _ h' => exact absurd rfl ha1
      have hct : t.countP p = 2 := by
        rw [Bool.eq_false_iff.mpr hpa] at hcount
        simpa using hcount
      exact ih hsub' hct

/-- C2: in a table built by `add_rule` insertions, an extension contained in
exactly two rules resolves to the higher-priority rule regardless of
insertion order, and on a priority tie to the rule inserted first —
`add_rule` maintains a descending order with a stable sort.  (Stored
extensions are normalised lowercase per the data model, matching the
lowercased lookup.) -/
theorem c2_priority_resolution (u v w : List FileTypeRule) (r1 r2 : FileTypeRule)
    (ext : PyStr) (hnorm : pyLower ext = ext)
    (h1 : ext ∈ r1.extensions) (h2 : ext ∈ r2.extensions)
    (hu : ∀ r ∈ u, ext ∉ r.extensions) (hv : ∀ r ∈ v, ext ∉ r.extensions)
    (hw : ∀ r ∈ w, ext ∉ r.extensions) :
    (r2.priority < r1.priority →
      get_rule_for_extension (buildTable (u ++ r1 :: v ++ r2 :: w)) ext = some r1) ∧
    (r1.priority < r2.priority →
      get_rule_for_extension (buildTable (u ++ r1 :: v ++ r2 :: w)) ext = some r2) ∧
    (r1.priority = r2.priority →
      get_rule_for_extension (buildTable (u ++ r1 :: v ++ r2 :: w)) ext = some r1) := by
  have hget : ∀ t : List FileTypeRule, get_rule_for_extension t ext
      = t.find? (fun r => decide (ext ∈ r.extensions)) := by
    intro t
    simp only [get_rule_for_extension, hnorm]
  have hbt := buildTable_eq_sortRules (u ++ r1 :: v ++ r2 :: w)
  have hmem1 : r1 ∈ u ++ r1 :: v ++ r2 :: w := by simp
  have hmem2 : r2 ∈ u ++ r1 :: v ++ r2 :: w := by simp
  have hp1 : (fun r => decide (ext ∈ r.extensions)) r1 = true := decide_eq_true h1
  have hp2 : (fun r => decide (ext ∈ r.extensions)) r2 = true := decide_eq_true h2
  have honly : ∀ r ∈ u ++ r1 :: v ++ r2 :: w,
      (fun r => decide (ext ∈ r.extensions)) r = true → r = r1 ∨ r = r2 := by
    intro r hr hpr
    have hin : ext ∈ r.extensions := of_decide_eq_true hpr
    rcases List.mem_append.mp hr with hr | hr
    · rcases List.mem_append.mp hr with hr | hr
      · exact absurd hin (hu r hr)
      · rcases List.mem_cons.mp hr with rfl | hr
        · exact Or.inl rfl
        · exact absurd hin (hv r hr)
    · rcases List.mem_cons.mp hr with rfl | hr
      · exact Or.inr rfl
      · exact absurd hin (hw r hr)
  have hperm := sortRules_perm (u ++ r1 :: v ++ r2 :: w)
  have hmem1s : r1 ∈ sortRules (u ++ r1 :: v ++ r2 :: w) := hperm.mem_iff.mpr hmem1
  have hmem2s : r2 ∈ sortRules (u ++ r1 :: v ++ r2 :: w) := hperm.mem_iff.mpr hmem2
  have honlys : ∀ r ∈ sortRules (u ++ r1 :: v ++ r2 :: w),
      (fun r => decide (ext ∈ r.extensions)) r = true → r = r1 ∨ r = r2 :=
    fun r hr => honly r (hperm.mem_iff.mp hr)
  refine ⟨?_, ?_, ?_⟩
  · intro hlt
    rw [hget, hbt]
    exact find?_max_of_two hp1 hlt (sortRules_sorted _) hmem1s honlys
  · intro hlt
    rw [hget, hbt]
    exact find?_max_of_two hp2 hlt (sortRules_sorted _) hmem2s
      (fun r hr hp => (honlys r hr hp).symm)
  · intro heq
    rw [hget, hbt]
    have hsub : List.Sublist [r1, r2] (u ++ r1 :: v ++ r2 :: w) := by
      exact List.Sublist.append (List.singleton_sublist.mpr (by simp))
        (List.Sublist.cons₂ r2 (List.nil_sublist w))
    have hsubs := sortRules_stable (le_of_eq heq.symm) hsub
    have hcu : u.countP (fun r => decide (ext ∈ r.extensions)) = 0 :=
      List.countP_eq_zero.mpr (fun r hr => by simpa using hu r hr)
    have hcv : v.countP (fun r => decide (ext ∈ r.extensions)) = 0 :=
      List.countP_eq_zero.mpr (fun r hr => by simpa using hv r hr)
    have hcw : w.countP (fun r => decide (ext ∈ r.extensions)) = 0 :=
      List.countP_eq_zero.mpr (fun r hr => by simpa using hw r hr)
    have hcount : (sortRules (u ++ r1 :: v ++ r2 :: w)).countP
        (fun r => decide (ext ∈ r.extensions)) = 2 := by
      rw [hperm.countP_eq]
      simp [List.countP_append, List.countP_cons, hcu, hcv, hcw, hp1, hp2, h1, h2]
    exact find?_first_of_pair hp1 hp2 hsubs hcount

/-- Witness for C2 at a concrete pair of rules sharing ".txt" with
priorities 100 > 90. -/
theorem c2_witness :
    get_rule_for_extension
      (buildTable
        [⟨[".txt".data], FileCategory.documents, "d1".data, false, none, none, 100⟩,
          ⟨[".txt".data], FileCategory.data, "d2".data, false, none, none, 90⟩])
      (".txt".data)
      = some ⟨[".txt".data], FileCategory.documents, "d1".data, false, none, none, 100⟩ := by
  have h := c2_priority_resolution [] [] []
    ⟨[".txt".data], FileCategory.documents, "d1".data, false, none, none, 100⟩
    ⟨[".txt".data], FileCategory.data, "d2".data, false, none, none, 90⟩
    (".txt".data) (by decide) (by decide) (by decide)
    (by intro r hr; cases hr) (by intro r hr; cases hr) (by intro r hr; cases hr)
  exact h.1 (by decide)

/-- Rebuilding the enum member from its exported value succeeds and is the
identity. -/
theorem fromValue?_value (c : FileCategory) :
    FileCategory.fromValue? c.value = some c := by
  cases c <;> decide

/-- Folding the import step over an exported table adds the
processor-stripped rules in order. -/
theorem import_export_aux :
    ∀ (rules t : List FileTypeRule),
      (export_config rules).foldlM
        (fun t d =>
          (FileCategory.fromValue? d.category).map
            (fun c => add_rule t
              ⟨d.extensions, c, d.description, d.requires_ai_analysis,
                d.ai_model_type, none, d.priority⟩))
        t
      = some (rules.foldl (fun acc r => add_rule acc (stripProc r)) t) := by
  intro rules
  induction rules with
  | nil => intro t; rfl
  | cons r rules ih =>
    intro t
    simp only [export_config, List.map_cons, List.foldlM_cons, fromValue?_value,
      Option.map_some']
    show (export_config rules).foldlM _ (add_rule t (stripProc r)) = _
    rw [ih (add_rule t (stripProc r)), List.foldl_cons]

/-- `import_config ∘ export_config` rebuilds the table (up to the unexported
`custom_processor`) through `add_rule`. -/
theorem import_export (T : List FileTypeRule) :
    import_config (export_config T) = some (buildTable (T.map stripProc)) := by
  show (export_config T).foldlM _ [] = _
  rw [import_export_aux T []]
  congr 1
  rw [buildTable, List.foldl_map]

/-- On a sorted table, rebuilding the stripped rules reproduces them in
order. -/
theorem stripProc_table_eq (T : List FileTypeRule)
    (hs : T.Pairwise (fun a b => b.priority ≤ a.priority)) :
    buildTable (T.map stripProc) = T.map stripProc := by
  rw [buildTable_eq_sortRules]
  exact sortRules_of_sorted (hs.map stripProc (fun a b h => h))

/-- Resolution on the stripped table is the stripped resolution. -/
theorem get_rule_map_stripProc (T : List FileTypeRule) (e : PyStr) :
    get_rule_for_extension (T.map stripProc) e
      = (get_rule_for_extension T e).map stripProc := by
  simp only [get_rule_for_extension]
  rw [List.find?_map]
  rfl

/-- C3: importing an exported table yields a table on which every extension
resolves to the same (category, description, requiresAiAnalysis,
aiModelType) as on the original.  (Tables held by the manager are sorted by
descending priority — the manager's invariant.) -/
theorem c3_roundtrip (T : List FileTypeRule)
    (hs : T.Pairwise (fun a b => b.priority ≤ a.priority)) (e : PyStr) :
    ∃ T', import_config (export_config T) = some T' ∧
      (get_rule_for_extension T' e).map
          (fun r => (r.category, r.description, r.requires_ai_analysis, r.ai_model_type))
        = (get_rule_for_extension T e).map
          (fun r => (r.category, r.description, r.requires_ai_analysis, r.ai_model_type)) := by
  refine ⟨T.map stripProc, ?_, ?_⟩
  · rw [import_export T, stripProc_table_eq T hs]
  · rw [get_rule_map_stripProc]
    cases get_rule_for_extension T e with
    | none => rfl
    | some r => rfl

/-- Witness for C3 at a concrete one-rule table. -/
theorem c3_witness :
    ∃ T', import_config (export_config
        [⟨[".txt".data], FileCategory.documents, "t".data, true, some ("text".data),
          none, 100⟩]) = some T' ∧
      (get_rule_for_extension T' (".txt".data)).map
          (fun r => (r.category, r.description, r.requires_ai_analysis, r.ai_model_type))
        = (get_rule_for_extension
            [⟨[".txt".data], FileCategory.documents, "t".data, true, some ("text".data),
              none, 100⟩] (".txt".data)).map
          (fun r => (r.category, r.description, r.requires_ai_analysis, r.ai_model_type)) :=
  c3_roundtrip
    [⟨[".txt".data], FileCategory.documents, "t".data, true, some ("text".data), none, 100⟩]
    (by simp) (".txt".data)

/-- A basename contains no path separator. -/
theorem slash_not_mem_basename (p : PyStr) : '/' ∉ basename p := by
  unfold basename
  intro h
  rw [List.mem_reverse] at h
  have := List.mem_takeWhile_imp h
  simp at this

/-- The four fields of a planned operation, through the resolved category. -/
theorem processOne_fields (rules : List FileTypeRule) (out : PyStr)
    (readText : PyStr → Option PyStr) (textAI imageAI : PyStr → PyStr) (p : PyStr) :
    (processOne rules out readText textAI imageAI p).source = p ∧
    (processOne rules out readText textAI imageAI p).type = "move".data ∧
    (processOne rules out readText textAI imageAI p).category = resolvedCategory rules p ∧
    (processOne rules out readText textAI imageAI p).destination
      = pyJoin (pyJoin out (resolvedCategory rules p)) (basename p) := by
  unfold processOne resolvedCategory
  rcases hx : get_rule_for_extension rules (pyLower (splitextExt (basename p)))
    with _ | rule <;> simp [hx]

/-- `pyJoin` in the regular case is plain slash concatenation. -/
theorem pyJoin_eq {a b : PyStr} (ha : a ≠ []) (hal : a.getLast? ≠ some '/')
    (hbh : b.head? ≠ some '/') : pyJoin a b = a ++ '/' :: b := by
  unfold pyJoin
  rw [if_neg (by simp [hbh]), if_neg (by simp [ha, hal])]

/-- The destination of a planned operation is
`out ++ "/" ++ category ++ "/" ++ basename` under the regular shape
assumptions. -/
theorem dest_formula (out cat base : PyStr) (h1 : out ≠ [])
    (h2 : out.getLast? ≠ some '/') (hc1 : cat ≠ []) (hc2 : '/' ∉ cat)
    (hb : '/' ∉ base) :
    pyJoin (pyJoin out cat) base = out ++ '/' :: (cat ++ '/' :: base) := by
  have hch : cat.head? ≠ some '/' := by
    cases cat with
    | nil => simp
    | cons c cs =>
      intro he
      have he' : c = '/' := by simpa using he
      subst he'
      exact hc2 (List.mem_cons_self _ _)
  have hbh : base.head? ≠ some '/' := by
    cases base with
    | nil => simp
    | cons c cs =>
      intro he
      have he' : c = '/' := by simpa using he
      subst he'
      exact hb (List.mem_cons_self _ _)
  rw [pyJoin_eq h1 h2 hch]
  have hd1 : out ++ '/' :: cat ≠ [] := by simp
  have hd2 : (out ++ '/' :: cat).getLast? ≠ some '/' := by
    intro he
    rcases cat with _ | ⟨c, cs⟩
    · exact absurd rfl hc1
    · rw [List.getLast?_append_cons] at he
      have hmem : '/' ∈ c :: cs := by
        have h1 : '/' ∈ (c :: cs).getLast? := Option.mem_def.mpr he
        rcases List.mem_getLast?_eq_getLast h1 with ⟨hne', heq⟩
        rw [heq]
        exact List.getLast_mem hne'
      exact hc2 hmem
  rw [pyJoin_eq hd1 hd2 hbh, List.append_assoc]
  rfl

/-- Nonempty slash-free categories make `cat ++ "/" ++ base` injective in
the pair (cat, base). -/
theorem cat_base_inj {c₁ c₂ b₁ b₂ : PyStr} (h1 : '/' ∉ c₁) (h2 : '/' ∉ c₂)
    (he : c₁ ++ '/' :: b₁ = c₂ ++ '/' :: b₂) : c₁ = c₂ ∧ b₁ = b₂ := by
  induction c₁ generalizing c₂ with
  | nil =>
    cases c₂ with
    | nil => simpa using he
    | cons d c₂' =>
      rw [List.nil_append, List.cons_append] at he
      injection he with hd _
      exact absurd (hd ▸ List.mem_cons_self d c₂') h2
  | cons a c₁' ih =>
    cases c₂ with
    | nil =>
      rw [List.nil_append, List.cons_append] at he
      injection he with hd _
      exact absurd (hd ▸ List.mem_cons_self a c₁') h1
    | cons d c₂' =>
      rw [List.cons_append, List.cons_append] at he
      injection he with hd htail
      have := ih (fun hm => h1 (List.mem_cons_of_mem a hm))
        (fun hm => h2 (List.mem_cons_of_mem d hm)) htail
      exact ⟨by rw [hd, this.1], this.2⟩

/-- The resolved category is nonempty and slash-free (it is an enum value
or the literal "Other"). -/
theorem resolvedCategory_props (rules : List FileTypeRule) (p : PyStr) :
    resolvedCategory rules p ≠ [] ∧ '/' ∉ resolvedCategory rules p := by
  unfold resolvedCategory
  rcases get_rule_for_extension rules (pyLower (splitextExt (basename p)))
    with _ | rule
  · exact ⟨by decide, by decide⟩
  · exact ⟨(FileCategory.value_props rule.category).2.1,
      (FileCategory.value_props rule.category).2.2⟩

/-- C6: on a batch in which no two files share (resolved category,
basename), the planner emits exactly one operation per input, every
operation has kind "move", each destination is
`outputRoot/category/basename`, and all destinations are pairwise
distinct.  (The output root is a regular path: nonempty without a trailing
slash.) -/
theorem c6_planner (rules : List FileTypeRule) (paths : List PyStr) (out : PyStr)
    (readText : PyStr → Option PyStr) (textAI imageAI : PyStr → PyStr)
    (hne : out ≠ []) (hsl : out.getLast? ≠ some '/')
    (hdist : paths.Pairwise (fun p q =>
      resolvedCategory rules p ≠ resolvedCategory rules q ∨ basename p ≠ basename q)) :
    (process_files_with_ai rules paths out readText textAI imageAI).length
      = paths.length ∧
    (∀ op ∈ process_files_with_ai rules paths out readText textAI imageAI,
      op.type = "move".data) ∧
    (process_files_with_ai rules paths out readText textAI imageAI).map
        Operation.destination
      = paths.map (fun p => out ++ '/' :: (resolvedCategory rules p ++ '/' :: basename p)) ∧
    ((process_files_with_ai rules paths out readText textAI imageAI).map
        Operation.destination).Pairwise (fun d₁ d₂ => d₁ ≠ d₂) := by
  have hdest : ∀ p, (processOne rules out readText textAI imageAI p).destination
      = out ++ '/' :: (resolvedCategory rules p ++ '/' :: basename p) := by
    intro p
    rw [(processOne_fields rules out readText textAI imageAI p).2.2.2]
    exact dest_formula out _ _ hne hsl (resolvedCategory_props rules p).1
      (resolvedCategory_props rules p).2 (slash_not_mem_basename p)
  have hmap : (process_files_with_ai rules paths out readText textAI imageAI).map
      Operation.destination
      = paths.map (fun p => out ++ '/' :: (resolvedCategory rules p ++ '/' :: basename p)) := by
    unfold process_files_with_ai
    rw [List.map_map]
    exact List.map_congr_left (fun p _ => hdest p)
  refine ⟨by simp [process_files_with_ai], ?_, hmap, ?_⟩
  · intro op hop
    rcases List.mem_map.mp hop with ⟨p, _, rfl⟩
    exact (processOne_fields rules out readText textAI imageAI p).2.1
  · rw [hmap, List.pairwise_map]
    refine hdist.imp ?_
    intro a b hab he
    have he' : resolvedCategory rules a ++ '/' :: basename a
        = resolvedCategory rules b ++ '/' :: basename b := by
      have := List.append_cancel_left he
      injection this
    have hij := cat_base_inj (resolvedCategory_props rules a).2
      (resolvedCategory_props rules b).2 he'
    rcases hab with hab | hab
    · exact hab hij.1
    · exact hab hij.2

/-- Witness for C6 at a concrete two-file batch with distinct basenames. -/
theorem c6_witness :
    (process_files_with_ai [] ["a/x.txt".data, "a/y.png".data] ("out".data)
        (fun _ => none) (fun _ => []) (fun _ => [])).length = 2 ∧
    (∀ op ∈ process_files_with_ai [] ["a/x.txt".data, "a/y.png".data] ("out".data)
        (fun _ => none) (fun _ => []) (fun _ => []), op.type = "move".data) ∧
    (process_files_with_ai [] ["a/x.txt".data, "a/y.png".data] ("out".data)
        (fun _ => none) (fun _ => []) (fun _ => [])).map Operation.destination
      = ["a/x.txt".data, "a/y.png".data].map
        (fun p => ("out".data) ++ '/' :: (resolvedCategory [] p ++ '/' :: basename p)) ∧
    ((process_files_with_ai [] ["a/x.txt".data, "a/y.png".data] ("out".data)
        (fun _ => none) (fun _ => []) (fun _ => [])).map
        Operation.destination).Pairwise (fun d₁ d₂ => d₁ ≠ d₂) := by
  have h := c6_planner [] ["a/x.txt".data, "a/y.png".data] ("out".data)
    (fun _ => none) (fun _ => []) (fun _ => [])
    (by decide) (by decide) (by decide)
  exact ⟨h.1, h.2.1, h.2.2.1, h.2.2.2⟩

/-- C7 counterexample: two inputs `d1/x.txt` and `d2/x.txt` with the same
rule (category Documents) and the same basename are both planned onto the
identical destination `out/Documents/x.txt`, with no disambiguation and no
conflict surfaced — the operation record carries no conflict information at
all, so the collision is silent. -/
theorem c7_counterexample :
    (process_files_with_ai
        [⟨[".txt".data], FileCategory.documents, "Text document".data, true,
          some ("text".data), none, 100⟩]
        ["d1/x.txt".data, "d2/x.txt".data] ("out".data)
        (fun _ => none) (fun _ => []) (fun _ => [])).map Operation.destination
      = ["out/Documents/x.txt".data, "out/Documents/x.txt".data] ∧
    (process_files_with_ai
        [⟨[".txt".data], FileCategory.documents, "Text document".data, true,
          some ("text".data), none, 100⟩]
        ["d1/x.txt".data, "d2/x.txt".data] ("out".data)
        (fun _ => none) (fun _ => []) (fun _ => [])).map Operation.source
      = ["d1/x.txt".data, "d2/x.txt".data] := by
  constructor <;> decide

/-- C7 (amended): when two inputs of a batch resolve to the same category
and share a basename, the planner still emits one operation per input —
it never drops an input — but it neither disambiguates nor reports: the two
operations carry the identical destination. -/
theorem c7_amended (rules : List FileTypeRule) (paths : List PyStr) (out : PyStr)
    (readText : PyStr → Option PyStr) (textAI imageAI : PyStr → PyStr)
    (p q : PyStr) (hp : p ∈ paths) (hq : q ∈ paths)
    (hcat : resolvedCategory rules p = resolvedCategory rules q)
    (hbase : basename p = basename q) :
    (process_files_with_ai rules paths out readText textAI imageAI).length
      = paths.length ∧
    ∃ op1 ∈ process_files_with_ai rules paths out readText textAI imageAI,
      ∃ op2 ∈ process_files_with_ai rules paths out readText textAI imageAI,
        op1.source = p ∧ op2.source = q ∧ op1.destination = op2.destination := by
  refine ⟨by simp [process_files_with_ai], ?_⟩
  refine ⟨processOne rules out readText textAI imageAI p,
    List.mem_map_of_mem _ hp,
    processOne rules out readText textAI imageAI q,
    List.mem_map_of_mem _ hq, ?_, ?_, ?_⟩
  · exact (processOne_fields rules out readText textAI imageAI p).1
  · exact (processOne_fields rules out readText textAI imageAI q).1
  · rw [(processOne_fields rules out readText textAI imageAI p).2.2.2,
      (processOne_fields rules out readText textAI imageAI q).2.2.2, hcat, hbase]

/-- Witness for C7 (amended) at the counterexample batch. -/
theorem c7_witness :
    (process_files_with_ai
        [⟨[".txt".data], FileCategory.documents, "Text document".data, true,
          some ("text".data), none, 100⟩]
        ["d1/x.txt".data, "d2/x.txt".data] ("out".data)
        (fun _ => none) (fun _ => []) (fun _ => [])).length = 2 ∧
    ∃ op1 ∈ process_files_with_ai
        [⟨[".txt".data], FileCategory.documents, "Text document".data, true,
          some ("text".data), none, 100⟩]
        ["d1/x.txt".data, "d2/x.txt".data] ("out".data)
        (fun _ => none) (fun _ => []) (fun _ => []),
      ∃ op2 ∈ process_files_with_ai
          [⟨[".txt".data], FileCategory.documents, "Text document".data, true,
            some ("text".data), none, 100⟩]
          ["d1/x.txt".data, "d2/x.txt".data] ("out".data)
          (fun _ => none) (fun _ => []) (fun _ => []),
        op1.source = "d1/x.txt".data ∧ op2.source = "d2/x.txt".data ∧
        op1.destination = op2.destination :=
  c7_amended
    [⟨[".txt".data], FileCategory.documents, "Text document".data, true,
      some ("text".data), none, 100⟩]
    ["d1/x.txt".data, "d2/x.txt".data] ("out".data)
    (fun _ => none) (fun _ => []) (fun _ => [])
    ("d1/x.txt".data) ("d2/x.txt".data)
    (by decide) (by decide) (by decide) (by decide)

/-- C8: for a file whose rule requires text AI analysis, a failed content
read (the oracle returns `none`, modelling the caught I/O or decoding
exception) degrades the description to the rule's default while the
category stays the rule's category; an operation is still emitted for the
file and the batch keeps one operation per input. -/
theorem c8_unreadable_content (rules : List FileTypeRule) (paths : List PyStr)
    (out : PyStr) (readText : PyStr → Option PyStr) (textAI imageAI : PyStr → PyStr)
    (f : PyStr) (rule : FileTypeRule) (hf : f ∈ paths)
    (hrule : get_rule_for_extension rules (pyLower (splitextExt (basename f))) = some rule)
    (hai : rule.requires_ai_analysis = true)
    (htype : rule.ai_model_type = some ("text".data))
    (hread : readText f = none) :
    (process_files_with_ai rules paths out readText textAI imageAI).length
      = paths.length ∧
    ∃ op ∈ process_files_with_ai rules paths out readText textAI imageAI,
      op.source = f ∧ op.description = rule.description ∧
      op.category = rule.category.value ∧ op.type = "move".data := by
  refine ⟨by simp [process_files_with_ai], ?_⟩
  refine ⟨processOne rules out readText textAI imageAI f,
    List.mem_map_of_mem _ hf, ?_, ?_, ?_, ?_⟩
  · exact (processOne_fields rules out readText textAI imageAI f).1
  · simp [processOne, hrule, hai, htype, hread]
  · simp [processOne, hrule]
  · exact (processOne_fields rules out readText textAI imageAI f).2.1

/-- Witness for C8: in a two-file batch the unreadable `x.txt` still yields
a `Documents` operation with the rule's default description. -/
theorem c8_witness :
    (process_files_with_ai
        [⟨[".txt".data], FileCategory.documents, "Text document".data, true,
          some ("text".data), none, 100⟩]
        ["a/x.txt".data, "a/y.bin".data] ("out".data)
        (fun _ => none) (fun _ => "AI description".data) (fun _ => [])).length = 2 ∧
    ∃ op ∈ process_files_with_ai
        [⟨[".txt".data], FileCategory.documents, "Text document".data, true,
          some ("text".data), none, 100⟩]
        ["a/x.txt".data, "a/y.bin".data] ("out".data)
        (fun _ => none) (fun _ => "AI description".data) (fun _ => []),
      op.source = "a/x.txt".data ∧ op.description = "Text document".data ∧
      op.category
        = (⟨[".txt".data], FileCategory.documents, "Text document".data, true,
            some ("text".data), none, 100⟩ : FileTypeRule).category.value ∧
      op.type = "move".data :=
  c8_unreadable_content
    [⟨[".txt".data], FileCategory.documents, "Text document".data, true,
      some ("text".data), none, 100⟩]
    ["a/x.txt".data, "a/y.bin".data] ("out".data)
    (fun _ => none) (fun _ => "AI description".data) (fun _ => [])
    ("a/x.txt".data)
    ⟨[".txt".data], FileCategory.documents, "Text document".data, true,
      some ("text".data), none, 100⟩
    (by decide) (by decide) (by decide) (by decide) (by decide)

/-- Dropping a satisfying prefix block. -/
theorem dropWhile_append_all {p : Char → Bool} :
    ∀ {xs ys : PyStr}, (∀ x ∈ xs, p x = true) →
      (xs ++ ys).dropWhile p = ys.dropWhile p := by
  intro xs
  induction xs with
  | nil => intro ys _; rfl
  | cons a xs ih =>
    intro ys h
    rw [List.cons_append, List.dropWhile_cons_of_pos (h a (List.mem_cons_self a xs))]
    exact ih (fun x hx => h x (List.mem_cons_of_mem a hx))

/-- `dropWhile` over an append whose left part does not vanish. -/
theorem dropWhile_append_ne {p : Char → Bool} :
    ∀ {xs ys : PyStr}, xs.dropWhile p ≠ [] →
      (xs ++ ys).dropWhile p = xs.dropWhile p ++ ys := by
  intro xs
  induction xs with
  | nil => intro ys h; exact absurd rfl h
  | cons a xs ih =>
    intro ys h
    by_cases hp : p a = true
    · rw [List.dropWhile_cons_of_pos hp] at h
      rw [List.cons_append, List.dropWhile_cons_of_pos hp,
        List.dropWhile_cons_of_pos hp, ih h]
    · rw [Bool.not_eq_true] at hp
      rw [List.cons_append, List.dropWhile_cons_of_neg (by simp [hp]),
        List.dropWhile_cons_of_neg (by simp [hp]), List.cons_append]

/-- A trailing kept element distributes out of `dropWhile`. -/
theorem dropWhile_append_last_neg {p : Char → Bool} {c : Char} (hc : p c = false) :
    ∀ (ys : PyStr), (ys ++ [c]).dropWhile p = ys.dropWhile p ++ [c] := by
  intro ys
  induction ys with
  | nil => simp [List.dropWhile_cons, hc]
  | cons a ys ih =>
    by_cases hp : p a = true
    · rw [List.cons_append, List.dropWhile_cons_of_pos hp,
        List.dropWhile_cons_of_pos hp, ih]
    · rw [Bool.not_eq_true] at hp
      rw [List.cons_append, List.dropWhile_cons_of_neg (by simp [hp]),
        List.dropWhile_cons_of_neg (by simp [hp]), List.cons_append]

/-- `pyRStrip` keeps a non-space head. -/
theorem pyRStrip_cons_neg {c : Char} (hc : isPySpace c = false) (X : PyStr) :
    pyRStrip (c :: X) = c :: pyRStrip X := by
  unfold pyRStrip
  rw [List.reverse_cons, dropWhile_append_last_neg hc, List.reverse_append]
  rfl

/-- `pyRStrip` over an append whose right part strips to nothing. -/
theorem pyRStrip_append_nil {X Y : PyStr} (h : pyRStrip Y = []) :
    pyRStrip (X ++ Y) = pyRStrip X := by
  unfold pyRStrip at *
  have h' : Y.reverse.dropWhile isPySpace = [] := by
    have := congrArg List.reverse h
    simpa using this
  rw [List.reverse_append, dropWhile_append_all (List.dropWhile_eq_nil_iff.mp h')]

/-- `pyRStrip` over an append whose right part keeps something. -/
theorem pyRStrip_append_ne {X Y : PyStr} (h : pyRStrip Y ≠ []) :
    pyRStrip (X ++ Y) = X ++ pyRStrip Y := by
  unfold pyRStrip at *
  have h' : Y.reverse.dropWhile isPySpace ≠ [] := by
    intro hc
    exact h (by rw [hc]; rfl)
  rw [List.reverse_append, dropWhile_append_ne h', List.reverse_append,
    List.reverse_reverse]

/-- `splitOnChar` never returns the empty list. -/
theorem splitOnChar_ne_nil (c : Char) : ∀ l : PyStr, splitOnChar c l ≠ [] := by
  intro l
  induction l with
  | nil => simp [splitOnChar]
  | cons a l ih =>
    simp only [splitOnChar]
    by_cases h : a == c
    · simp [h]
    · simp only [h, Bool.false_eq_true, if_false]
      rcases hs : splitOnChar c l with _ | ⟨h0, t0⟩
      · simp
      · simp

/-- Splitting at a leading separator. -/
theorem splitOnChar_cons_sep (c : Char) (l : PyStr) :
    splitOnChar c (c :: l) = [] :: splitOnChar c l := by
  simp [splitOnChar]

/-- Splitting past a separator-free block prepends it to the first part. -/
theorem splitOnChar_append_no {c : Char} :
    ∀ {xs ys : PyStr}, c ∉ xs →
      splitOnChar c (xs ++ ys) = (splitOnChar c ys).modifyHead (xs ++ ·) := by
  intro xs
  induction xs with
  | nil =>
    intro ys _
    rcases hs : splitOnChar c ys with _ | ⟨h0, t0⟩
    · exact absurd hs (splitOnChar_ne_nil c ys)
    · simp [hs]
  | cons a xs ih =>
    intro ys h
    have ha : (a == c) = false := by
      simp only [beq_eq_false_iff_ne, ne_eq]
      intro he
      exact h (he ▸ List.mem_cons_self a xs)
    rw [List.cons_append]
    simp only [splitOnChar, ha, Bool.false_eq_true, if_false]
    rw [ih (fun hm => h (List.mem_cons_of_mem a hm))]
    rcases hs : splitOnChar c ys with _ | ⟨h0, t0⟩
    · exact absurd hs (splitOnChar_ne_nil c ys)
    · simp

/-- A separator-free string is a single segment. -/
theorem splitOnChar_no {c : Char} {l : PyStr} (h : c ∉ l) :
    splitOnChar c l = [l] := by
  have h2 := @splitOnChar_append_no c l [] h
  rw [List.append_nil] at h2
  rw [h2]
  simp [splitOnChar]

/-- A prefix stays a prefix after appending. -/
theorem isPrefixOf_append_left {t X : PyStr} (h : t.isPrefixOf X = true) :
    ∀ Y, t.isPrefixOf (X ++ Y) = true := by
  intro Y
  induction t generalizing X with
  | nil => simp [List.isPrefixOf]
  | cons a t ih =>
    cases X with
    | nil => simp [List.isPrefixOf] at h
    | cons b X' =>
      simp only [List.isPrefixOf, Bool.and_eq_true, beq_iff_eq] at h ⊢
      exact ⟨h.1, ih h.2 ⟩

/-- Fuel-irrelevance of `removeAllAux` above the input length. -/
theorem removeAllAux_congr (t : PyStr) :
    ∀ (n m : ℕ) (l : PyStr), l.length ≤ n → l.length ≤ m →
      removeAllAux t n l = removeAllAux t m l := by
  intro n
  induction n with
  | zero =>
    intro m l h1 _
    have hl : l = [] := List.eq_nil_of_length_eq_zero (Nat.le_zero.mp h1)
    subst hl
    cases m <;> rfl
  | succ n ih =>
    intro m l h1 h2
    cases l with
    | nil => cases m <;> rfl
    | cons a l' =>
      cases m with
      | zero => simp at h2
      | succ m' =>
        simp only [removeAllAux]
        by_cases hc : (t.isPrefixOf (a :: l') && !t.isEmpty) = true
        · rw [if_pos hc, if_pos hc]
          apply ih
          · have := List.length_drop (t.length - 1) l'
            simp only [List.length_cons] at h1
            omega
          · have := List.length_drop (t.length - 1) l'
            simp only [List.length_cons] at h2
            omega
        · rw [if_neg hc, if_neg hc]
          have hn : l'.length ≤ n := by
            simp only [List.length_cons] at h1
            omega
          have hm : l'.length ≤ m' := by
            simp only [List.length_cons] at h2
            omega
          exact congrArg (fun z => a :: z) (ih m' l' hn hm)

/-- `removeAll` keeps a head that starts no occurrence. -/
theorem removeAll_cons_neg {t : PyStr} {a : Char} {l : PyStr}
    (h : t.isPrefixOf (a :: l) = false) :
    removeAll t (a :: l) = a :: removeAll t l := by
  unfold removeAll
  simp only [List.length_cons, removeAllAux, h, Bool.false_and, Bool.false_eq_true,
    if_false]

/-- `isPrefixOf` is reflexive. -/
theorem isPrefixOf_self : ∀ t : PyStr, t.isPrefixOf t = true := by
  intro t
  induction t with
  | nil => rfl
  | cons a t ih => simp [List.isPrefixOf, ih]

/-- `removeAll` deletes a leading occurrence of the (nonempty) token. -/
theorem removeAll_token {t : PyStr} (ht : t ≠ []) :
    ∀ X : PyStr, removeAll t (t ++ X) = removeAll t X := by
  intro X
  cases t with
  | nil => exact absurd rfl ht
  | cons t0 t' =>
    unfold removeAll
    simp only [List.cons_append, List.length_cons, removeAllAux, List.append_eq]
    have hpre : (t0 :: t').isPrefixOf (t0 :: (t' ++ X)) = true := by
      simp only [List.isPrefixOf, beq_self_eq_true, Bool.true_and]
      exact isPrefixOf_append_left (isPrefixOf_self t') X
    rw [if_pos (by simp [hpre])]
    have hdrop : List.drop (t'.length + 1 - 1) (t' ++ X) = X := by
      simp only [Nat.add_sub_cancel]
      exact List.drop_left t' X
    rw [hdrop]
    apply removeAllAux_congr
    · simp [List.length_append]
    · exact le_refl _

/-- `removeAll` passes over a block free of the token's first character. -/
theorem removeAll_skip {t0 : Char} {t' : PyStr} :
    ∀ (X Y : PyStr), t0 ∉ X →
      removeAll (t0 :: t') (X ++ Y) = X ++ removeAll (t0 :: t') Y := by
  intro X
  induction X with
  | nil => intro Y _; simp
  | cons a X' ih =>
    intro Y h
    have hne : (t0 == a) = false := by
      simp only [beq_eq_false_iff_ne, ne_eq]
      intro he
      exact h (he ▸ List.mem_cons_self a X')
    have hpre : (t0 :: t').isPrefixOf (a :: (X' ++ Y)) = false := by
      simp [List.isPrefixOf, hne]
    rw [List.cons_append, removeAll_cons_neg hpre,
      ih Y (fun hm => h (List.mem_cons_of_mem a hm)), List.cons_append]

/-- Stripping the runtime-error fallback response removes exactly the outer
whitespace, whatever the embedded message. -/
theorem aiError_strip (e : PyStr) :
    pyStrip (aiErrorResponse e) = errCore1 ++ (e ++ errCore2) := by
  have hA : ("\n            CATEGORY: EXTENSION_BASED"
      ++ "\n            REASON: AI analysis failed due to technical error: ").data
      = wsIndent ++ errCore1 := by decide
  have hB : ("\n            TAGS: error, ai-failed"
      ++ "\n            CONFIDENCE: 0.5\n            ").data
      = errCore2 ++ wsIndent := by decide
  have h0 : aiErrorResponse e
      = wsIndent ++ (errCore1 ++ (e ++ (errCore2 ++ wsIndent))) := by
    unfold aiErrorResponse
    rw [hA, hB]
    simp [List.append_assoc]
  rw [h0]
  unfold pyStrip pyLStrip
  rw [dropWhile_append_all (by decide),
    dropWhile_append_ne (show errCore1.dropWhile isPySpace ≠ [] from by decide),
    show errCore1.dropWhile isPySpace = errCore1 from by decide]
  have h1 : errCore1 ++ (e ++ (errCore2 ++ wsIndent))
      = ((errCore1 ++ e) ++ errCore2) ++ wsIndent := by
    simp [List.append_assoc]
  rw [h1, pyRStrip_append_nil (show pyRStrip wsIndent = [] from by decide)]
  have h2 : (errCore1 ++ e) ++ errCore2
      = ((errCore1 ++ e)
          ++ ("\n            TAGS: error, ai-failed\n            CONFIDENCE: 0.".data))
        ++ ['5'] := by
    rw [show errCore2
      = ("\n            TAGS: error, ai-failed\n            CONFIDENCE: 0.".data) ++ ['5']
      from by decide]
    simp [List.append_assoc]
  rw [h2, pyRStrip_append_ne (show pyRStrip ['5'] ≠ [] from by decide),
    show pyRStrip ['5'] = ['5'] from by decide,
    show errCore2
      = ("\n            TAGS: error, ai-failed\n            CONFIDENCE: 0.".data) ++ ['5']
      from by decide]
  simp [List.append_assoc]

/-- The lines of the stripped runtime-error fallback response: the embedded
(newline-free) message extends the reason line. -/
theorem aiError_lines {e : PyStr} (he : '\n' ∉ e) :
    splitOnChar '\n' (pyStrip (aiErrorResponse e))
      = [errLine1, errLine2 ++ e, errLine3, errLine4] := by
  rw [aiError_strip e]
  rw [show errCore1 = errLine1 ++ '\n' :: errLine2 from by decide]
  have hassoc : (errLine1 ++ '\n' :: errLine2) ++ (e ++ errCore2)
      = errLine1 ++ ('\n' :: (errLine2 ++ (e ++ errCore2))) := by
    simp [List.append_assoc]
  rw [hassoc, splitOnChar_append_no (show '\n' ∉ errLine1 from by decide),
    splitOnChar_cons_sep,
    splitOnChar_append_no (show '\n' ∉ errLine2 from by decide),
    splitOnChar_append_no he,
    show errCore2 = '\n' :: (errLine3 ++ '\n' :: errLine4) from by decide,
    splitOnChar_cons_sep,
    splitOnChar_append_no (show '\n' ∉ errLine3 from by decide),
    splitOnChar_cons_sep,
    splitOnChar_no (show '\n' ∉ errLine4 from by decide)]
  simp

/-- Stripping the reason line: the indentation goes, the trailing strip acts
on the embedded message. -/
theorem reasonLine_strip (e : PyStr) :
    pyStrip (errLine2 ++ e) = pyRStrip (reasonLine ++ e) := by
  unfold pyStrip pyLStrip
  rw [show errLine2 = ("            ".data) ++ reasonLine from by decide]
  have hassoc : (("            ".data) ++ reasonLine) ++ e
      = ("            ".data) ++ (reasonLine ++ e) := by
    simp [List.append_assoc]
  rw [hassoc, dropWhile_append_all (by decide)]
  rw [show reasonLine
    = 'R' :: ("EASON: AI analysis failed due to technical error: ".data) from by decide]
  simp only [List.cons_append]
  rw [List.dropWhile_cons_of_neg (by decide)]

/-- A failed prefix test within the first block stays failed after
appending. -/
theorem isPrefixOf_append_false :
    ∀ (t X : PyStr), t.isPrefixOf X = false → t.length ≤ X.length →
      ∀ Y, t.isPrefixOf (X ++ Y) = false := by
  intro t
  induction t with
  | nil => intro X h _ _; simp [List.isPrefixOf] at h
  | cons a t ih =>
    intro X h hlen Y
    cases X with
    | nil => simp at hlen
    | cons b X' =>
      simp only [List.cons_append, List.isPrefixOf] at h ⊢
      by_cases hab : (a == b) = true
      · rw [hab, Bool.true_and] at h ⊢
        refine ih X' h ?_ Y
        simp only [List.length_cons] at hlen
        omega
      · rw [Bool.not_eq_true] at hab
        rw [hab, Bool.false_and]

/-- What the parser sees on the reason line of a runtime-error response:
it enters exactly the `REASON:` branch, and the value it assigns starts
with the fixed failure text, whatever the embedded message. -/
theorem reasonLine_facts (e : PyStr) :
    matchCat (errLine2 ++ e) = false ∧ matchReason (errLine2 ++ e) = true ∧
    matchTags (errLine2 ++ e) = false ∧ matchConf (errLine2 ++ e) = false ∧
    ∃ rest, reasonValOf (errLine2 ++ e) = failCore ++ rest := by
  by_cases hE : pyRStrip e = []
  · have hs : pyStrip (errLine2 ++ e)
        = ("REASON: AI analysis failed due to technical error:".data) := by
      rw [reasonLine_strip, pyRStrip_append_nil hE]
      decide
    refine ⟨?_, ?_, ?_, ?_, ⟨":".data, ?_⟩⟩
    · unfold matchCat; rw [hs]; decide
    · unfold matchReason; rw [hs]; decide
    · unfold matchTags; rw [hs]; decide
    · unfold matchConf; rw [hs]; decide
    · unfold reasonValOf; rw [hs]; decide
  · have hs : pyStrip (errLine2 ++ e) = reasonLine ++ pyRStrip e := by
      rw [reasonLine_strip, pyRStrip_append_ne hE]
    refine ⟨?_, ?_, ?_, ?_, ?_⟩
    · unfold matchCat
      rw [hs]
      exact isPrefixOf_append_false catTok reasonLine (by decide) (by decide) _
    · unfold matchReason
      rw [hs]
      exact isPrefixOf_append_left (by decide) _
    · unfold matchTags
      rw [hs]
      exact isPrefixOf_append_false tagsTok reasonLine (by decide) (by decide) _
    · unfold matchConf
      rw [hs]
      exact isPrefixOf_append_false confTok reasonLine (by decide) (by decide) _
    · unfold reasonValOf
      rw [hs]
      rw [show reasonLine
        = reasonTok ++ (" AI analysis failed due to technical error: ".data) from by decide]
      have hassoc : (reasonTok ++ (" AI analysis failed due to technical error: ".data))
          ++ pyRStrip e
          = reasonTok ++ ((" AI analysis failed due to technical error: ".data) ++ pyRStrip e) := by
        simp [List.append_assoc]
      rw [hassoc, removeAll_token (show reasonTok ≠ [] from by decide)]
      rw [show reasonTok = 'R' :: ("EASON:".data) from by decide]
      rw [@removeAll_skip 'R' ("EASON:".data)
        (" AI analysis failed due to technical error: ".data) (pyRStrip e) (by decide)]
      unfold pyStrip pyLStrip
      rw [dropWhile_append_ne
          (show ((" AI analysis failed due to technical error: ".data : PyStr)).dropWhile isPySpace
              ≠ [] from by decide),
        show ((" AI analysis failed due to technical error: ".data : PyStr)).dropWhile isPySpace
          = ("AI analysis failed due to technical error: ".data) from by decide]
      by_cases hZ : pyRStrip (removeAll ('R' :: ("EASON:".data)) (pyRStrip e)) = []
      · rw [pyRStrip_append_nil hZ]
        exact ⟨":".data, by decide⟩
      · rw [pyRStrip_append_ne hZ,
          show ("AI analysis failed due to technical error: ".data : PyStr)
            = failCore ++ (": ".data) from by decide]
        exact ⟨(": ".data) ++ pyRStrip (removeAll ('R' :: ("EASON:".data)) (pyRStrip e)),
          by simp [List.append_assoc]⟩

/-- C5 counterexample, two parts.  First: when the capability is unavailable
(torch missing), the adapter's fallback result has confidence 0 — not the
claimed 0.5 — and tags ["torch-missing", "ai-unavailable"] — neither empty
nor ["error", "ai-failed"].  Second: the runtime-exception conversion is not
even universally a sentinel result: the exception message is interpolated
into the fallback template before re-parsing, so a message containing a
newline followed by a field line — here "x\nCATEGORY: Foo" — makes the last
`CATEGORY:` line win and the result category become "Foo", not
"EXTENSION_BASED", and `categorize_by_content` then does not substitute the
extension-derived category. -/
theorem c5_counterexample :
    ((categorize_with_ai ("d".data) false (Except.ok []) none).category
      = "EXTENSION_BASED".data ∧
    (categorize_with_ai ("d".data) false (Except.ok []) none).tags
      = ["torch-missing".data, "ai-unavailable".data] ∧
    (categorize_with_ai ("d".data) false (Except.ok []) none).confidence = 0 ∧
    (0 : ℚ) ≠ 1 / 2 ∧
    (["torch-missing".data, "ai-unavailable".data] : List PyStr) ≠ [] ∧
    (["torch-missing".data, "ai-unavailable".data] : List PyStr)
      ≠ ["error".data, "ai-failed".data]) ∧
    ((categorize_with_ai ("d".data) true
        (Except.error ("x\nCATEGORY: Foo".data)) none).category = "Foo".data ∧
    ("Foo".data : PyStr) ≠ "EXTENSION_BASED".data ∧
    (categorize_by_content ("d".data) ("Documents".data) true
        (Except.error ("x\nCATEGORY: Foo".data)) none).category = "Foo".data) := by
  refine ⟨⟨by decide, by decide, ?_, by norm_num, by decide, by decide⟩,
    by decide, by decide, by decide⟩
  show (parse_ai_response torchMissingResponse).confidence = 0
  have hd : splitOnChar '\n' (pyStrip torchMissingResponse)
      = ["CATEGORY: EXTENSION_BASED".data,
          "            REASON: Torch not available for AI analysis".data,
          "            TAGS: torch-missing, ai-unavailable".data]
        ++ ("            CONFIDENCE: 0.0".data) :: [] := by decide
  rw [parse_conf_last hd (by decide) (fun x hx => absurd hx (List.not_mem_nil x))]
  unfold confValOf
  rw [show pyStrip (removeAll confTok (pyStrip ("            CONFIDENCE: 0.0".data)))
      = "0.0".data from by decide,
    pyFloat?_eq_some (show pyFloatRaw ("0.0".data) = some (0, 1, 0) from by decide)]
  norm_num

/-- C5 (amended): every failure of the AI adapter is caught rather than
propagated, with class-specific results: capability unavailable gives the
sentinel category "EXTENSION_BASED", confidence 0, tags
["torch-missing", "ai-unavailable"] and a description naming the missing
capability; a runtime exception during generation whose message contains no
newline gives the sentinel category, confidence 0.5, tags
["error", "ai-failed"] and a description containing "AI analysis failed due
to technical error"; an exception escaping a sub-step of
`categorize_with_ai` itself gives the sentinel category, confidence 0.5,
empty tags and a description naming the failure.  The newline-free proviso
on the runtime-exception clause is necessary: the message is interpolated
into the fallback template before re-parsing, so an embedded field line
(e.g. a message ending in "\nCATEGORY: Foo") overrides the corresponding
field, the sentinel included — the counterexample above exhibits this. -/
theorem c5_failure_handling :
    (∀ (d : PyStr) (gen : Except PyStr PyStr),
      categorize_with_ai d false gen none
        = ⟨"EXTENSION_BASED".data,
            d ++ (" | Torch not available for AI analysis".data),
            ["torch-missing".data, "ai-unavailable".data], 0⟩) ∧
    (∀ (d e : PyStr), '\n' ∉ e →
      (categorize_with_ai d true (Except.error e) none).category
        = "EXTENSION_BASED".data ∧
      (categorize_with_ai d true (Except.error e) none).tags
        = ["error".data, "ai-failed".data] ∧
      (categorize_with_ai d true (Except.error e) none).confidence = 1 / 2 ∧
      ∃ rest, (categorize_with_ai d true (Except.error e) none).description
        = d ++ (" | AI analysis failed due to technical error".data) ++ rest) ∧
    (∀ (d e : PyStr) (tor : Bool) (gen : Except PyStr PyStr),
      categorize_with_ai d tor gen (some e)
        = ⟨"EXTENSION_BASED".data,
            d ++ (" (AI categorization failed: ".data) ++ e ++ (")".data),
            [], 1 / 2⟩) := by
  refine ⟨?_, ?_, ?_⟩
  · intro d gen
    have hr : categorize_with_ai d false gen none
        = ⟨(parse_ai_response torchMissingResponse).category,
            d ++ (" | ".data) ++ (parse_ai_response torchMissingResponse).reason,
            (parse_ai_response torchMissingResponse).tags,
            (parse_ai_response torchMissingResponse).confidence⟩ := rfl
    have hconf : (parse_ai_response torchMissingResponse).confidence = 0 := by
      have hd : splitOnChar '\n' (pyStrip torchMissingResponse)
          = ["CATEGORY: EXTENSION_BASED".data,
              "            REASON: Torch not available for AI analysis".data,
              "            TAGS: torch-missing, ai-unavailable".data]
            ++ ("            CONFIDENCE: 0.0".data) :: [] := by decide
      rw [parse_conf_last hd (by decide) (fun x hx => absurd hx (List.not_mem_nil x))]
      unfold confValOf
      rw [show pyStrip (removeAll confTok (pyStrip ("            CONFIDENCE: 0.0".data)))
          = "0.0".data from by decide,
        pyFloat?_eq_some (show pyFloatRaw ("0.0".data) = some (0, 1, 0) from by decide)]
      norm_num
    rw [hr, hconf,
      show (parse_ai_response torchMissingResponse).category = "EXTENSION_BASED".data
        from by decide,
      show (parse_ai_response torchMissingResponse).reason
        = "Torch not available for AI analysis".data from by decide,
      show (parse_ai_response torchMissingResponse).tags
        = ["torch-missing".data, "ai-unavailable".data] from by decide,
      List.append_assoc,
      show (" | ".data : PyStr) ++ ("Torch not available for AI analysis".data)
        = " | Torch not available for AI analysis".data from by decide]
  · intro d e he
    have hlines := aiError_lines he
    have hrf := reasonLine_facts e
    have hd1 : splitOnChar '\n' (pyStrip (aiErrorResponse e))
        = [] ++ errLine1 :: [errLine2 ++ e, errLine3, errLine4] := by rw [hlines]; rfl
    have hd2 : splitOnChar '\n' (pyStrip (aiErrorResponse e))
        = [errLine1] ++ (errLine2 ++ e) :: [errLine3, errLine4] := by rw [hlines]; rfl
    have hd3 : splitOnChar '\n' (pyStrip (aiErrorResponse e))
        = [errLine1, errLine2 ++ e] ++ errLine3 :: [errLine4] := by rw [hlines]; rfl
    have hd4 : splitOnChar '\n' (pyStrip (aiErrorResponse e))
        = [errLine1, errLine2 ++ e, errLine3] ++ errLine4 :: [] := by rw [hlines]; rfl
    refine ⟨?_, ?_, ?_, ?_⟩
    · show (parse_ai_response (aiErrorResponse e)).category = "EXTENSION_BASED".data
      have hqc : ∀ x ∈ [errLine2 ++ e, errLine3, errLine4], matchCat x = false := by
        intro x hx
        rcases List.mem_cons.mp hx with rfl | hx
        · exact hrf.1
        · rcases List.mem_cons.mp hx with rfl | hx
          · decide
          · rcases List.mem_cons.mp hx with rfl | hx
            · decide
            · exact absurd hx (List.not_mem_nil x)
      rw [parse_cat_last hd1 (by decide) hqc]
      decide
    · show (parse_ai_response (aiErrorResponse e)).tags
        = ["error".data, "ai-failed".data]
      have hqt : ∀ x ∈ [errLine4], matchTags x = false := by
        intro x hx
        rcases List.mem_cons.mp hx with rfl | hx
        · decide
        · exact absurd hx (List.not_mem_nil x)
      rw [parse_tags_last hd3 (by decide) hqt]
      decide
    · show (parse_ai_response (aiErrorResponse e)).confidence = 1 / 2
      rw [parse_conf_last hd4 (by decide) (fun x hx => absurd hx (List.not_mem_nil x))]
      unfold confValOf
      rw [show pyStrip (removeAll confTok (pyStrip errLine4)) = "0.5".data from by decide,
        pyFloat?_eq_some (show pyFloatRaw ("0.5".data) = some (5, 1, 0) from by decide)]
      norm_num
    · show ∃ rest, d ++ (" | ".data) ++ (parse_ai_response (aiErrorResponse e)).reason
        = d ++ (" | AI analysis failed due to technical error".data) ++ rest
      have hqr : ∀ x ∈ [errLine3, errLine4], matchReason x = false := by
        intro x hx
        rcases List.mem_cons.mp hx with rfl | hx
        · decide
        · rcases List.mem_cons.mp hx with rfl | hx
          · decide
          · exact absurd hx (List.not_mem_nil x)
      rw [parse_reason_last hd2 hrf.2.1 hqr]
      rcases hrf.2.2.2.2 with ⟨rest, hrest⟩
      refine ⟨rest, ?_⟩
      rw [hrest,
        show (" | AI analysis failed due to technical error".data : PyStr)
          = (" | ".data) ++ failCore from by decide]
      simp [List.append_assoc]
  · intro d e tor gen
    rfl

/-- Witness for C5 (amended) at concrete failures of each class. -/
theorem c5_witness :
    categorize_with_ai ("img".data) false (Except.ok []) none
      = ⟨"EXTENSION_BASED".data,
          ("img".data) ++ (" | Torch not available for AI analysis".data),
          ["torch-missing".data, "ai-unavailable".data], 0⟩ ∧
    ((categorize_with_ai ("img".data) true (Except.error ("boom".data)) none).category
        = "EXTENSION_BASED".data ∧
      (categorize_with_ai ("img".data) true (Except.error ("boom".data)) none).tags
        = ["error".data, "ai-failed".data] ∧
      (categorize_with_ai ("img".data) true (Except.error ("boom".data)) none).confidence
        = 1 / 2 ∧
      ∃ rest,
        (categorize_with_ai ("img".data) true (Except.error ("boom".data)) none).description
          = ("img".data) ++ (" | AI analysis failed due to technical error".data) ++ rest) ∧
    categorize_with_ai ("img".data) true (Except.ok []) (some ("oops".data))
      = ⟨"EXTENSION_BASED".data,
          ("img".data) ++ (" (AI categorization failed: ".data) ++ ("oops".data) ++ (")".data),
          [], 1 / 2⟩ :=
  ⟨c5_failure_handling.1 ("img".data) (Except.ok []),
    c5_failure_handling.2.1 ("img".data) ("boom".data) (by decide),
    c5_failure_handling.2.2 ("img".data) ("oops".data) true (Except.ok [])⟩
